import Mathlib

/-!
Fibonacci / FizzBuzz command line program (`fibonacci.c`).

A shallow embedding of `src/fibonacci.c` and the properties proved about it.

Conventions of the embedding.

* `uint64_t` and `uint8_t` values are natural numbers; where an operation of the
  source can leave the range of its type the reduction modulo `2 ^ 64`
  (respectively `2 ^ 8`) is written out.
* The three `static` variables of `calculateFibonacci` are the record `GenState`,
  passed in and returned by every call.
* A C string is a `List Char`: the characters stored from the pointer onwards.
  The terminating NUL is either an explicit `'\x00'` in the list or the end of the list.
* `stdout` is the list of the texts written by the successive `printf` calls.
-/

namespace Fibonacci

/-! ## Constants and types -/

/-- The macro `UPPER_LIMIT` (line 7). -/
def UPPER_LIMIT : Nat := 92

/-- The enumeration `error_enum` (lines 9-15). -/
inductive error_enum where
  | ERROR_INPUT_EXCESS
  | ERROR_INPUT_CONVERSION
  | ERROR_INPUT_UPPER_LIMIT
  deriving DecidableEq, Repr

/-- The `static` variables of `calculateFibonacci` (lines 104-106). -/
structure GenState where
  fibNumber : Nat
  first : Nat
  second : Nat
  deriving DecidableEq, Repr

/-- Values of the static initialisers: the state of the generator when the process
starts (lines 104-106). -/
def initState : GenState := ⟨0, 0, 1⟩

/-! ## Sequence generator -/

/-- The function `calculateFibonacci` (lines 101-138).  The block under `if (reset)`
(lines 109-114) declares three new block-scoped variables that shadow the statics
and are dropped at the closing brace, so the statics keep their values. -/
def calculateFibonacci (st : GenState) (index : Nat) (reset : Bool) : Nat × GenState :=
  let st : GenState :=
    if reset then
      let _fibNumber : Nat := 0
      let _first : Nat := 0
      let _second : Nat := 1
      st
    else st
  if index > UPPER_LIMIT then
    (0, { st with fibNumber := 0 })
  else if index ≤ 1 then
    (index, { st with fibNumber := index })
  else
    let fibNumber := (st.first + st.second) % 2 ^ 64
    (fibNumber, { fibNumber := fibNumber, first := st.second, second := fibNumber })

/-- The calls `calculateFibonacci(i, (i == 0))` for `i = 0, 1, ..., n - 1` in this order,
as issued by the loops of `main` (lines 56-63) and `test_calculateFibonacci`
(lines 375-404): the generator state after the calls and the values returned. -/
def walk (st : GenState) : Nat → GenState × List Nat
  | 0 => (st, [])
  | n + 1 =>
    let prev := walk st n
    let r := calculateFibonacci prev.1 n (n == 0)
    (r.2, prev.2 ++ [r.1])

/-- The value returned by the call at index `i` that ends a walk over `0, 1, ..., i`
started in state `st`. -/
def walkResult (st : GenState) (i : Nat) : Nat :=
  (calculateFibonacci (walk st i).1 i (i == 0)).1

/-! ## Validator -/

/-- The value `LONG_MAX` of `<limits.h>` for a 64-bit `long`. -/
def LONG_MAX : Int := 2 ^ 63 - 1

/-- The value `LONG_MIN` of `<limits.h>` for a 64-bit `long`. -/
def LONG_MIN : Int := -(2 ^ 63)

/-- The C library predicate `isspace` in the "C" locale: space, `\t`, `\n`, `\v`, `\f`, `\r`. -/
def isspace (c : Char) : Bool :=
  c == ' ' || (9 ≤ c.toNat && c.toNat ≤ 13)

/-- The C library predicate `isdigit`: one of `'0'`, ..., `'9'`. -/
def isdigit (c : Char) : Bool :=
  48 ≤ c.toNat && c.toNat ≤ 57

/-- The digit scan of `strtol`: consumes the longest run of decimal digits, accumulating
their value from the left; returns the value and the unread rest. -/
def scanDigits : Nat → List Char → Nat × List Char
  | acc, [] => (acc, [])
  | acc, c :: cs =>
    if isdigit c then scanDigits (acc * 10 + (c.toNat - 48)) cs else (acc, c :: cs)

/-- The optional sign of the subject sequence of `strtol`: whether it is negative, and the
text after the sign. -/
def scanSign : List Char → Bool × List Char
  | '-' :: cs => (true, cs)
  | '+' :: cs => (false, cs)
  | cs => (false, cs)

/-- The C library function `strtol(nptr, &endptr, 10)` (ISO C 7.22.1.4) in the "C" locale with
a 64-bit `long`, which `inputValid` calls at line 79: skips leading white space, reads an
optional sign and the longest run of decimal digits.  Returns the converted value and the
text `endptr` points to.  Without any digit no conversion is performed: the value is 0 and
`endptr` is `nptr`.  A value outside the range of `long` is clamped to `LONG_MAX` or
`LONG_MIN`. -/
def strtol (nptr : List Char) : Int × List Char :=
  let signed := scanSign (nptr.dropWhile isspace)
  match signed.2 with
  | [] => (0, nptr)
  | c :: cs =>
    if isdigit c then
      let scanned := scanDigits 0 (c :: cs)
      let magnitude : Int := scanned.1
      let value : Int :=
        if signed.1 then (if -magnitude < LONG_MIN then LONG_MIN else -magnitude)
        else (if magnitude > LONG_MAX then LONG_MAX else magnitude)
      (value, scanned.2)
    else (0, nptr)

/-- The character a `char *` points to, as a number: 0 at the terminating NUL. -/
def deref : List Char → Nat
  | [] => 0
  | c :: _ => c.toNat

/-- The function `inputValid` (lines 76-95).  The second argument is the content of
`*converted` before the call; the result is the returned flag and the content of
`*converted` after the call. -/
def inputValid (input : List Char) (converted : Nat) : Bool × Nat :=
  let parsed := strtol input
  let output : Int := parsed.1
  let invalid : List Char := parsed.2
  if deref invalid == 0 then
    if output ≤ 0 then
      (false, converted)
    else
      (true, output.toNat % 2 ^ 64)
  else
    (false, converted)

/-! ## Primality check and classifier -/

/-- The loop of `isPrime` (lines 200-206), entered with the current value of `i`.
Here `i < upperLimit ≤ (2 ^ 64 - 1) / 2`, so `i += 2` stays in the range of `uint64_t`. -/
def isPrimeLoop (toCheck upperLimit i : Nat) : Bool :=
  if i < upperLimit then
    if toCheck % i == 0 then false
    else isPrimeLoop toCheck upperLimit (i + 2)
  else true
termination_by upperLimit - i
decreasing_by omega

/-- The function `isPrime` (lines 183-209). -/
def isPrime (toCheck : Nat) : Bool :=
  if toCheck ≤ 1 then false
  else if toCheck % 2 == 0 then false
  else
    let upperLimit := toCheck / 2
    isPrimeLoop toCheck upperLimit 3

/-- The function `printOutput` (lines 143-177): the text written to `stdout`.
The conversion `%lu` writes the decimal digits of the value. -/
def printOutput (fibNumber : Nat) : String :=
  if fibNumber == 0 then "0 \r\n"
  else if fibNumber % 15 == 0 then "FizzBuzz \r\n"
  else if fibNumber % 3 == 0 then "Buzz \r\n"
  else if fibNumber % 5 == 0 then "Fizz \r\n"
  else if isPrime fibNumber then "BuzzFizz \r\n"
  else Nat.repr fibNumber ++ " \r\n"

/-- The function `printError` (lines 214-234): the texts written to `stdout`, one for
each `printf` call. -/
def printError : error_enum → List String
  | .ERROR_INPUT_EXCESS =>
    [" incorrect number of inputs \r\n",
     " enter fib --test to test the functions \r\n",
     " enter fib x to calculate the xth fibonacci number \r\n",
     " for example: fib 10 to calculate the 10th number \r\n"]
  | .ERROR_INPUT_CONVERSION =>
    [" the input must be a whole number greater than 0 \r\n",
     " for example: fib 10 to calculate the 10th number \r\n"]
  | .ERROR_INPUT_UPPER_LIMIT =>
    [" the largest fibonacci number that can be calculated is " ++ Nat.repr UPPER_LIMIT ++ " \r\n"]

/-! ## Self tests -/

/-- The function `test_inputValid` (lines 267-355): the number of failed tests and the texts
written.  Each call passes the content of the buffer `input` up to the terminator the test
has just stored; the bytes of the buffer behind it are not read. -/
def test_inputValid : Nat × List String :=
  let output : Nat := 0
  let iFailed : Nat := 0
  let out : List String := [" \r\n", " testing inputValid .. \r\n"]
  -- test 1
  let out := out ++ ["    input -1        : "]
  let call := inputValid ['-', '1', '\x00'] output
  let result := call.1
  let output := call.2
  let out := out ++ [(if result == false then "pass \r\n" else "fail **\r\n") ++ "   "]
  let iFailed := if result then (iFailed + 1) % 256 else iFailed
  -- test 2
  let out := out ++ [" input  0        : "]
  let call := inputValid ['0', '\x00'] output
  let result := call.1
  let output := call.2
  let out := out ++ [(if result == false then "pass \r\n" else "fail **\r\n") ++ "   "]
  let iFailed := if result then (iFailed + 1) % 256 else iFailed
  -- test 3
  let out := out ++ [" input  1        : "]
  let call := inputValid ['1', '\x00'] output
  let result := call.1
  let output := call.2
  let out :=
    if result then out ++ [(if output == 1 then "pass \r\n" else "fail **\r\n") ++ "   "]
    else out ++ ["fail **\r\n"]
  let iFailed :=
    if result then (if output != 1 then (iFailed + 1) % 256 else iFailed)
    else (iFailed + 1) % 256
  -- test 4
  let out := out ++ [" input  100      : "]
  let call := inputValid ['1', '0', '0', '\x00'] output
  let result := call.1
  let output := call.2
  let out :=
    if result then out ++ [(if output == 100 then "pass \r\n" else "fail **\r\n") ++ "   "]
    else out ++ ["fail **\r\n"]
  let iFailed :=
    if result then (if output != 100 then (iFailed + 1) % 256 else iFailed)
    else (iFailed + 1) % 256
  -- test 5
  let out := out ++ [" input  abc      : "]
  let call := inputValid ['a', 'b', 'c', '\x00'] output
  let result := call.1
  let out := out ++ [(if result == false then "pass \r\n" else "fail **\r\n") ++ "   "]
  let iFailed := if result then (iFailed + 1) % 256 else iFailed
  (iFailed, out)

/-- The local variables `f2`, ..., `f100` of `test_calculateFibonacci` (lines 368-373). -/
structure Samples where
  f2 : Nat
  f10 : Nat
  f20 : Nat
  f40 : Nat
  f60 : Nat
  f100 : Nat
  deriving DecidableEq, Repr

/-- The loop of `test_calculateFibonacci` (lines 375-404), entered with the current value
of the `uint8_t` counter `i`. -/
def testLoop (st : GenState) (s : Samples) (i : Nat) : GenState × Samples :=
  if i ≤ 100 then
    let call := calculateFibonacci st i (i == 0)
    let fNumber := call.1
    let s : Samples :=
      if i == 2 then { s with f2 := fNumber }
      else if i == 10 then { s with f10 := fNumber }
      else if i == 20 then { s with f20 := fNumber }
      else if i == 40 then { s with f40 := fNumber }
      else if i == 60 then { s with f60 := fNumber }
      else if i == 100 then { s with f100 := fNumber }
      else s
    testLoop call.2 s ((i + 1) % 256)
  else (st, s)
termination_by 101 - i
decreasing_by omega

/-- The function `test_calculateFibonacci` (lines 361-473), run with the generator in state
`st`: the number of failed tests, the texts written and the generator state left behind. -/
def test_calculateFibonacci (st : GenState) : Nat × List String × GenState :=
  let iFailed : Nat := 0
  let out : List String := [" \r\n", " testing calculateFibonacci .. \r\n"]
  let looped := testLoop st { f2 := 0, f10 := 0, f20 := 0, f40 := 0, f60 := 0, f100 := 1 } 0
  let s := looped.2
  -- test 1
  let out := out ++
    [if s.f2 == 1 then "    fibonacci 1     : pass \r\n"
     else "    fibonacci 10    : fail ** (returned " ++ Nat.repr s.f2 ++ ") \r\n"]
  let iFailed := if s.f2 == 1 then iFailed else (iFailed + 1) % 256
  -- test 2
  let out := out ++
    [if s.f10 == 55 then "    fibonacci 10    : pass \r\n"
     else "    fibonacci 10    : fail ** (returned " ++ Nat.repr s.f10 ++ ") \r\n"]
  let iFailed := if s.f10 == 55 then iFailed else (iFailed + 1) % 256
  -- test 3
  let out := out ++
    [if s.f20 == 6765 then "    fibonacci 20    : pass \r\n"
     else "    fibonacci 20    : fail ** (returned " ++ Nat.repr s.f20 ++ ") \r\n"]
  let iFailed := if s.f20 == 6765 then iFailed else (iFailed + 1) % 256
  -- test 4
  let out := out ++
    [if s.f40 == 102334155 then "    fibonacci 40    : pass \r\n"
     else "    fibonacci 40    : fail ** (returned " ++ Nat.repr s.f40 ++ ") \r\n"]
  let iFailed := if s.f40 == 102334155 then iFailed else (iFailed + 1) % 256
  -- test 5
  let out := out ++
    [if s.f60 == 1548008755920 then "    fibonacci 60    : pass \r\n"
     else "    fibonacci 60    : fail ** (returned " ++ Nat.repr s.f60 ++ ") \r\n"]
  let iFailed := if s.f60 == 1548008755920 then iFailed else (iFailed + 1) % 256
  -- test 6
  let out := out ++
    [if s.f100 == 0 then "    fibonacci 100   : pass \r\n"
     else "    fibonacci 100   : fail ** (returned " ++ Nat.repr s.f100 ++ ") \r\n"]
  let iFailed := if s.f100 == 0 then iFailed else (iFailed + 1) % 256
  (iFailed, out, looped.1)

/-- The function `test_isPrime` (lines 479-542): the number of failed tests and the texts
written. -/
def test_isPrime : Nat × List String :=
  let iFailed : Nat := 0
  let out : List String := [" \r\n", " testing isPrime .. \r\n"]
  -- 0 should return false
  let out := out ++
    [if isPrime 0 then "    prime number 0   : fail ** (returned true) \r\n"
     else "    prime check 0   : pass \r\n"]
  let iFailed := if isPrime 0 then (iFailed + 1) % 256 else iFailed
  -- 3 should return true
  let out := out ++
    [if isPrime 3 then "    prime check 3   : pass \r\n"
     else "    prime check 3   : fail ** (returned false) \r\n"]
  let iFailed := if isPrime 3 then iFailed else (iFailed + 1) % 256
  -- 17 should return true
  let out := out ++
    [if isPrime 17 then "    prime check 17  : pass \r\n"
     else "    prime check 17  : fail ** (returned false) \r\n"]
  let iFailed := if isPrime 17 then iFailed else (iFailed + 1) % 256
  -- 40 should return false
  let out := out ++
    [if isPrime 40 then "    prime check 40  : fail ** (returned true) \r\n"
     else "    prime check 40  : pass \r\n"]
  let iFailed := if isPrime 40 then (iFailed + 1) % 256 else iFailed
  -- 193 should return true
  let out := out ++
    [if isPrime 193 then "    prime check 193 : pass \r\n"
     else "    prime check 193 : fail ** (returned false) \r\n"]
  let iFailed := if isPrime 193 then iFailed else (iFailed + 1) % 256
  (iFailed, out)

/-- The function `runTests` (lines 240-261), run with the generator in state `st`: the value
of the counter `iFailed` before the summary, the texts written and the generator state left
behind. -/
def runTests (st : GenState) : Nat × List String × GenState :=
  let out : List String := [" \r\n", " running tests \r\n"]
  let iFailed : Nat := 0
  let t1 := test_inputValid
  let iFailed := (iFailed + t1.1) % 256
  let out := out ++ t1.2
  let t2 := test_calculateFibonacci st
  let iFailed := (iFailed + t2.1) % 256
  let out := out ++ t2.2.1
  let t3 := test_isPrime
  let iFailed := (iFailed + t3.1) % 256
  let out := out ++ t3.2
  let out :=
    if iFailed == 0 then out ++ ["\r\n", " All tests passed \r\n"]
    else out ++ ["\r\n", " Failed " ++ Nat.repr iFailed ++ " test(s) \r\n"]
  (iFailed, out, t2.2.2)

/-! ## Dispatcher -/

/-- The characters of a C string: those before the first NUL. -/
def cstr (s : List Char) : List Char :=
  s.takeWhile (fun c => c.toNat != 0)

/-- The C library function `strcmp`, as far as `main` uses it: whether the result is 0,
that is whether the two strings are equal. -/
def strcmpIsZero (a b : List Char) : Bool :=
  cstr a == cstr b

/-- The loop of `main` (lines 56-63), entered with the current value of the `uint8_t`
counter `i` and the generator in state `st`: the generator state after the loop and the
texts written.  The loop is reached only behind the check of line 49, which is the
argument `h`. -/
def mainLoop (nFibonacci : Nat) (h : nFibonacci ≤ UPPER_LIMIT) (st : GenState) (i : Nat) :
    GenState × List String :=
  if i < nFibonacci then
    let call := calculateFibonacci st i (i == 0)
    let fibNumber := call.1
    let rest := mainLoop nFibonacci h call.2 ((i + 1) % 256)
    (rest.1, printOutput fibNumber :: rest.2)
  else (st, [])
termination_by nFibonacci - i
decreasing_by
  simp only [UPPER_LIMIT] at h
  omega

/-- The function `main` (lines 28-71) of a process started with the arguments `argv`
(`argv[0]` included, `argc` is their number): the exit code and the texts written to
`stdout`.  The generator starts in `initState`. -/
def main (argv : List (List Char)) : Int × List String :=
  match argv with
  | [_, arg] =>
    if strcmpIsZero arg "--test".toList then
      (0, (runTests initState).2.1)
    else
      let valid := inputValid arg 0
      let nFibonacci := valid.2
      if valid.1 then
        if h : nFibonacci > UPPER_LIMIT then
          (-1, printError .ERROR_INPUT_UPPER_LIMIT)
        else
          (0, (mainLoop nFibonacci (Nat.le_of_not_lt h) initState 0).2)
      else
        (0, printError .ERROR_INPUT_CONVERSION)
  | _ => (0, printError .ERROR_INPUT_EXCESS)

/-! ## Calls issued by the dispatcher -/

/-- A call of `calculateFibonacci` (with its arguments) or of `printOutput` (with its
argument), as an entry of the sequence of calls a run of `main` issues. -/
inductive Call where
  | calc (index : Nat) (reset : Bool)
  | print (fibNumber : Nat)
  deriving DecidableEq, Repr

/-- The loop of `main` (lines 56-63) once more, recording the calls of lines 59 and 62
in place of the texts written. -/
def mainLoopCalls (nFibonacci : Nat) (h : nFibonacci ≤ UPPER_LIMIT) (st : GenState) (i : Nat) :
    List Call :=
  if i < nFibonacci then
    let call := calculateFibonacci st i (i == 0)
    let fibNumber := call.1
    Call.calc i (i == 0) :: Call.print fibNumber ::
      mainLoopCalls nFibonacci h call.2 ((i + 1) % 256)
  else []
termination_by nFibonacci - i
decreasing_by
  simp only [UPPER_LIMIT] at h
  omega

/-- The loop of `test_calculateFibonacci` (lines 375-404) once more, recording the calls of
line 378. -/
def testLoopCalls (i : Nat) : List Call :=
  if i ≤ 100 then
    Call.calc i (i == 0) :: testLoopCalls ((i + 1) % 256)
  else []
termination_by 101 - i
decreasing_by omega

/-- The function `main` (lines 28-71) once more, recording the calls of `calculateFibonacci`
and `printOutput` it issues, directly or through `runTests`, in place of the exit code and
the texts written.  Of the self tests only `test_calculateFibonacci` calls one of the two. -/
def mainCalls (argv : List (List Char)) : List Call :=
  match argv with
  | [_, arg] =>
    if strcmpIsZero arg "--test".toList then
      testLoopCalls 0
    else
      let valid := inputValid arg 0
      let nFibonacci := valid.2
      if valid.1 then
        if h : nFibonacci > UPPER_LIMIT then
          []
        else
          mainLoopCalls nFibonacci (Nat.le_of_not_lt h) initState 0
      else
        []
  | _ => []

/-- The indices of the calls of `calculateFibonacci` in a sequence of calls, in order. -/
def calcIndices : List Call → List Nat
  | [] => []
  | Call.calc index _ :: cs => index :: calcIndices cs
  | Call.print _ :: cs => calcIndices cs

/-- The arguments of the calls of `printOutput` in a sequence of calls, in order. -/
def printedValues : List Call → List Nat
  | [] => []
  | Call.calc _ _ :: cs => printedValues cs
  | Call.print fibNumber :: cs => fibNumber :: printedValues cs

/-! ## Specification-side notions -/

/-- The number a string of decimal digits denotes: the most significant digit first. -/
def decimalValue (s : List Char) : Nat :=
  Nat.ofDigits 10 ((s.map (fun c => c.toNat - 48)).reverse)

/-! ## The generator on a fresh walk -/

theorem fib_lt_of_le_92 {i : Nat} (h : i ≤ 92) : Nat.fib i < 2 ^ 64 := by
  have h92 : Nat.fib 92 < 2 ^ 64 := by norm_num
  exact lt_of_le_of_lt (Nat.fib_mono h) h92

theorem walk_succ (st : GenState) (n : Nat) :
    walk st (n + 1) =
      ((calculateFibonacci (walk st n).1 n (n == 0)).2,
        (walk st n).2 ++ [walkResult st n]) := rfl

/-- The `reset` argument has no effect on the result or on the state. -/
theorem calculateFibonacci_reset (st : GenState) (index : Nat) (reset : Bool) :
    calculateFibonacci st index reset = calculateFibonacci st index false := by
  cases reset <;> rfl

/-- A call with an index from 2 to 92: the sum of the accumulators, which then advance. -/
theorem calculateFibonacci_step (st : GenState) (index : Nat) (reset : Bool)
    (h2 : 2 ≤ index) (h92 : index ≤ 92) :
    calculateFibonacci st index reset =
      ((st.first + st.second) % 2 ^ 64,
        ⟨(st.first + st.second) % 2 ^ 64, st.second, (st.first + st.second) % 2 ^ 64⟩) := by
  rw [calculateFibonacci_reset]
  have h1 : ¬ index > UPPER_LIMIT := by simp only [UPPER_LIMIT]; omega
  have h3 : ¬ index ≤ 1 := by omega
  simp [calculateFibonacci, h1, h3]

/-- State of the generator after the calls at indices `0, ..., k + 1` of a walk that
starts with the accumulators at their seed. -/
theorem walk_state (st : GenState) (h0 : st.first = 0) (h1 : st.second = 1) :
    ∀ k, k + 1 ≤ 92 → (walk st (k + 2)).1 = ⟨Nat.fib (k + 1), Nat.fib k, Nat.fib (k + 1)⟩ := by
  intro k
  induction k with
  | zero =>
    intro _
    obtain ⟨f, a, b⟩ := st
    simp only at h0 h1
    subst h0 h1
    simp [walk, calculateFibonacci, UPPER_LIMIT]
  | succ k ih =>
    intro hk
    have ih := ih (by omega)
    rw [walk_succ, ih, calculateFibonacci_step _ _ _ (by omega) (by omega)]
    have hlt : Nat.fib (k + 2) < 2 ^ 64 := fib_lt_of_le_92 (by omega)
    have hfib : Nat.fib k + Nat.fib (k + 1) = Nat.fib (k + 2) := (Nat.fib_add_two).symm
    simp only [hfib, Nat.mod_eq_of_lt hlt]

/-- On a walk that starts with the accumulators at their seed, the call at index
`i ≤ 92` returns the Fibonacci number of `i`. -/
theorem walkResult_seed (st : GenState) (h0 : st.first = 0) (h1 : st.second = 1)
    (i : Nat) (h : i ≤ 92) : walkResult st i = Nat.fib i := by
  match i, h with
  | 0, _ => simp [walkResult, walk, calculateFibonacci, UPPER_LIMIT]
  | 1, _ => simp [walkResult, walk, calculateFibonacci, UPPER_LIMIT]
  | k + 2, h =>
    unfold walkResult
    rw [walk_state st h0 h1 k (by omega), calculateFibonacci_step _ _ _ (by omega) h]
    have hlt : Nat.fib (k + 2) < 2 ^ 64 := fib_lt_of_le_92 h
    have hfib : Nat.fib k + Nat.fib (k + 1) = Nat.fib (k + 2) := (Nat.fib_add_two).symm
    simp only [hfib, Nat.mod_eq_of_lt hlt]

/-- C1. On a fresh walk from the initial process state, with the indices `0, 1, ..., i`
called in increasing order and `reset` set only at index 0, the call at every index
`i ≤ 92` returns the Fibonacci number `F(i)`, which is below `2 ^ 64`: nothing wraps. -/
theorem fresh_walk_returns_fib (i : Nat) (h : i ≤ 92) :
    walkResult initState i = Nat.fib i ∧ Nat.fib i < 2 ^ 64 :=
  ⟨walkResult_seed initState rfl rfl i h, fib_lt_of_le_92 h⟩

/-- The values the self test expects at the indices 2, 10, 20, 40 and 60 of a fresh walk. -/
theorem fresh_walk_returns_fib_witness :
    (2 ≤ 92 ∧ walkResult initState 2 = 1) ∧
    (10 ≤ 92 ∧ walkResult initState 10 = 55) ∧
    (20 ≤ 92 ∧ walkResult initState 20 = 6765) ∧
    (40 ≤ 92 ∧ walkResult initState 40 = 102334155) ∧
    (60 ≤ 92 ∧ walkResult initState 60 = 1548008755920) :=
  ⟨⟨by decide, (fresh_walk_returns_fib 2 (by decide)).1.trans (by norm_num)⟩,
   ⟨by decide, (fresh_walk_returns_fib 10 (by decide)).1.trans (by norm_num)⟩,
   ⟨by decide, (fresh_walk_returns_fib 20 (by decide)).1.trans (by norm_num)⟩,
   ⟨by decide, (fresh_walk_returns_fib 40 (by decide)).1.trans (by norm_num)⟩,
   ⟨by decide, (fresh_walk_returns_fib 60 (by decide)).1.trans (by norm_num)⟩⟩

/-- C3. A call with `reset` set does not re-seed the generator.  After a first walk over
the indices 0..3 the accumulators are `first = 1`, `second = 2`; the call
`calculateFibonacci(0, true)` leaves them there, and the second walk returns 3 at index 2
and 5 at index 3, where `F(2) = 1` and `F(3) = 2`. -/
theorem reset_does_not_reseed :
    (walk initState 4).1 = ⟨2, 1, 2⟩ ∧
    calculateFibonacci (walk initState 4).1 0 true = (0, ⟨0, 1, 2⟩) ∧
    (walk (walk initState 4).1 4).2 = [0, 1, 3, 5] ∧
    walkResult (walk initState 4).1 2 = 3 ∧ Nat.fib 2 = 1 := by
  refine ⟨by decide, by decide, by decide, by decide, by decide⟩

/-- C4. For an index above 92 (in the range of `uint8_t`) `calculateFibonacci` returns 0
and leaves the accumulators `first` and `second` as they are, whatever the state and the
`reset` flag. -/
theorem sentinel_above_upper_limit (st : GenState) (reset : Bool) (index : Nat)
    (h : 92 < index) (_h8 : index ≤ 255) :
    (calculateFibonacci st index reset).1 = 0 ∧
    (calculateFibonacci st index reset).2.first = st.first ∧
    (calculateFibonacci st index reset).2.second = st.second := by
  have h1 : index > UPPER_LIMIT := h
  cases reset <;> simp [calculateFibonacci, h1]

/-- In the walk of the self test (indices 0, 1, ..., 100) the call at index 100 returns 0
and keeps the accumulators. -/
theorem sentinel_above_upper_limit_witness :
    (92 < 100 ∧ 100 ≤ 255) ∧
    (calculateFibonacci (walk initState 100).1 100 (100 == 0)).1 = 0 ∧
    (calculateFibonacci (walk initState 100).1 100 (100 == 0)).2.first
      = (walk initState 100).1.first ∧
    (calculateFibonacci (walk initState 100).1 100 (100 == 0)).2.second
      = (walk initState 100).1.second :=
  ⟨⟨by decide, by decide⟩,
    sentinel_above_upper_limit (walk initState 100).1 (100 == 0) 100 (by decide) (by decide)⟩

/-! ## The validator -/

theorem decimalValue_nil : decimalValue [] = 0 := by
  simp [decimalValue]

theorem decimalValue_cons (c : Char) (cs : List Char) :
    decimalValue (c :: cs) = (c.toNat - 48) * 10 ^ cs.length + decimalValue cs := by
  simp [decimalValue, Nat.ofDigits_append, Nat.ofDigits_singleton]
  ring

theorem isspace_of_isdigit {c : Char} (h : isdigit c = true) : isspace c = false := by
  simp only [isdigit, Bool.and_eq_true, decide_eq_true_eq] at h
  have hne : c ≠ ' ' := by
    rintro rfl
    have : (' ' : Char).toNat = 32 := by decide
    omega
  simp only [isspace, Bool.or_eq_false_iff, Bool.and_eq_false_iff, beq_eq_false_iff_ne,
    decide_eq_false_iff_not]
  exact ⟨hne, by omega⟩

theorem scanSign_of_isdigit {c : Char} (cs : List Char) (h : isdigit c = true) :
    scanSign (c :: cs) = (false, c :: cs) := by
  simp only [isdigit, Bool.and_eq_true, decide_eq_true_eq] at h
  have h1 : c ≠ '-' := by
    rintro rfl
    have : ('-' : Char).toNat = 45 := by decide
    omega
  have h2 : c ≠ '+' := by
    rintro rfl
    have : ('+' : Char).toNat = 43 := by decide
    omega
  unfold scanSign
  split
  · rename_i heq
    simp only [List.cons.injEq] at heq
    exact absurd heq.1 h1
  · rename_i heq
    simp only [List.cons.injEq] at heq
    exact absurd heq.1 h2
  · rfl

/-- The digit scan reads a run of digits up to the first character that is not a digit (or
up to the end) and returns the value of the run and the unread rest. -/
theorem scanDigits_append (d r : List Char) (hd : ∀ c ∈ d, isdigit c = true)
    (hr : ∀ c ∈ r.head?, isdigit c = false) :
    ∀ acc, scanDigits acc (d ++ r) = (acc * 10 ^ d.length + decimalValue d, r) := by
  induction d with
  | nil =>
    intro acc
    cases r with
    | nil => simp [scanDigits, decimalValue_nil]
    | cons c t =>
      have hc : isdigit c = false := hr c (by simp)
      simp [scanDigits, hc, decimalValue_nil]
  | cons c cs ih =>
    intro acc
    have hc : isdigit c = true := hd c (List.mem_cons_self _ _)
    have hcs : ∀ x ∈ cs, isdigit x = true := fun x hx => hd x (List.mem_cons_of_mem _ hx)
    rw [List.cons_append, scanDigits]
    simp only [hc, if_true]
    rw [ih hcs, decimalValue_cons]
    simp only [List.length_cons, pow_succ, Prod.mk.injEq, and_true]
    ring

/-- The library function `strtol` on a non-empty run of digits `d` followed by a rest `r`
that does not start with a digit: `endptr` is `r`, and the value is that of `d`, clamped
to `LONG_MAX`. -/
theorem strtol_digits_append (d r : List Char) (hne : d ≠ []) (hd : ∀ c ∈ d, isdigit c = true)
    (hr : ∀ c ∈ r.head?, isdigit c = false) :
    strtol (d ++ r) =
      ((if (decimalValue d : Int) > LONG_MAX then LONG_MAX else (decimalValue d : Int)), r) := by
  obtain ⟨c, cs, rfl⟩ := List.exists_cons_of_ne_nil hne
  have hc : isdigit c = true := hd c (List.mem_cons_self _ _)
  have hdrop : (c :: (cs ++ r)).dropWhile isspace = c :: (cs ++ r) := by
    simp [List.dropWhile, isspace_of_isdigit hc]
  have hscan := scanDigits_append (c :: cs) r hd hr 0
  simp only [zero_mul, zero_add, List.cons_append] at hscan
  simp only [List.cons_append, strtol, hdrop, scanSign_of_isdigit (cs ++ r) hc, hc, if_true,
    hscan, Bool.false_eq_true, if_false]

/-- A C string splits into its characters and a rest that starts at the terminator. -/
theorem cstr_split (s : List Char) : ∃ r, s = cstr s ++ r ∧ deref r = 0 := by
  induction s with
  | nil => exact ⟨[], by simp [cstr], rfl⟩
  | cons c cs ih =>
    by_cases hc : c.toNat = 0
    · exact ⟨c :: cs, by simp [cstr, List.takeWhile_cons, hc], by simpa [deref] using hc⟩
    · obtain ⟨r, hr, hr0⟩ := ih
      refine ⟨r, ?_, hr0⟩
      have : cstr (c :: cs) = c :: cstr cs := by simp [cstr, List.takeWhile_cons, hc]
      rw [this, List.cons_append, ← hr]

theorem not_isdigit_of_deref {r : List Char} (h : deref r = 0) :
    ∀ c ∈ r.head?, isdigit c = false := by
  cases r with
  | nil => simp
  | cons c t =>
    intro x hx
    simp only [List.head?_cons, Option.mem_def, Option.some.injEq] at hx
    subst hx
    simp only [deref] at h
    simp [isdigit, h]

/-- The validator on an argument whose characters are a non-empty string of digits with a
value in the range of `long`: the whole string is converted. -/
theorem strtol_numeral (s : List Char) (hne : cstr s ≠ [])
    (hd : ∀ c ∈ cstr s, isdigit c = true) (hmax : decimalValue (cstr s) ≤ 2 ^ 63 - 1) :
    ∃ r, strtol s = ((decimalValue (cstr s) : Int), r) ∧ deref r = 0 := by
  obtain ⟨r, hs, hr0⟩ := cstr_split s
  refine ⟨r, ?_, hr0⟩
  have hle : ¬ ((decimalValue (cstr s) : Int) > LONG_MAX) := by
    simp only [LONG_MAX]
    omega
  have h := strtol_digits_append (cstr s) r hne hd (not_isdigit_of_deref hr0)
  rw [← hs, if_neg hle] at h
  exact h

theorem inputValid_numeral (s : List Char) (converted : Nat) (hne : cstr s ≠ [])
    (hd : ∀ c ∈ cstr s, isdigit c = true)
    (h1 : 1 ≤ decimalValue (cstr s)) (hmax : decimalValue (cstr s) ≤ 2 ^ 63 - 1) :
    inputValid s converted = (true, decimalValue (cstr s)) := by
  obtain ⟨r, hs, hr0⟩ := strtol_numeral s hne hd hmax
  have hpos : ¬ ((decimalValue (cstr s) : Int) ≤ 0) := by omega
  have hlt : decimalValue (cstr s) < 2 ^ 64 := by omega
  simp only [inputValid, hs, hr0, beq_self_eq_true, if_true, hpos, if_false, Int.toNat_ofNat,
    Nat.mod_eq_of_lt hlt]

/-- C5. For every argument whose characters (up to the terminator) are a non-empty string of
decimal digits with a value `n` such that `1 ≤ n ≤ 2 ^ 63 - 1`, `inputValid` returns true
and stores exactly `n` in `*converted`. -/
theorem inputValid_accepts (s : List Char) (converted : Nat) (hne : cstr s ≠ [])
    (hd : ∀ c ∈ cstr s, isdigit c = true)
    (h1 : 1 ≤ decimalValue (cstr s)) (hmax : decimalValue (cstr s) ≤ 2 ^ 63 - 1) :
    (inputValid s converted).1 = true ∧ (inputValid s converted).2 = decimalValue (cstr s) := by
  rw [inputValid_numeral s converted hne hd h1 hmax]
  exact ⟨rfl, rfl⟩

/-- The arguments "1" and "100" of the self test are accepted with the values 1 and 100. -/
theorem inputValid_accepts_witness :
    ((inputValid ['1', '\x00'] 0).1 = true ∧ (inputValid ['1', '\x00'] 0).2 = 1) ∧
    ((inputValid ['1', '0', '0'] 0).1 = true ∧ (inputValid ['1', '0', '0'] 0).2 = 100) :=
  ⟨inputValid_accepts ['1', '\x00'] 0 (by decide) (by decide) (by decide) (by decide),
   inputValid_accepts ['1', '0', '0'] 0 (by decide) (by decide) (by decide) (by decide)⟩

/-- Trailing characters are rejected: a run of digits followed by a character that is
neither a digit nor the terminator is not consumed to its end. -/
theorem inputValid_trailing (d t : List Char) (c : Char) (converted : Nat) (hne : d ≠ [])
    (hd : ∀ x ∈ d, isdigit x = true) (hc : isdigit c = false) (hnul : c.toNat ≠ 0) :
    inputValid (d ++ c :: t) converted = (false, converted) := by
  have hr : ∀ x ∈ (c :: t).head?, isdigit x = false := by
    intro x hx
    simp only [List.head?_cons, Option.mem_def, Option.some.injEq] at hx
    rw [← hx]
    exact hc
  have hderef : ¬ (deref (c :: t) = 0) := by simpa [deref] using hnul
  simp only [inputValid, strtol_digits_append d (c :: t) hne hd hr, beq_iff_eq, hderef, if_false]

/-- The flag `inputValid` returns does not depend on the previous content of `*converted`. -/
theorem inputValid_flag (s : List Char) (converted : Nat) :
    (inputValid s converted).1 = (inputValid s 0).1 := by
  unfold inputValid
  by_cases h0 : deref (strtol s).2 = 0 <;> by_cases hp : (strtol s).1 ≤ 0 <;> simp [h0, hp]

/-- C6. `inputValid` returns true only if `strtol` has consumed the whole string (`endptr`
is at the terminator) and the converted value is greater than 0; when the string is not
consumed to its end, or the value is zero or negative, it returns false.  The arguments
"-1", "0", "abc" and the empty string are rejected. -/
theorem inputValid_rejects (s : List Char) (converted : Nat) :
    ((inputValid s converted).1 = true ↔ deref (strtol s).2 = 0 ∧ 0 < (strtol s).1) ∧
    ((inputValid s converted).1 = false ↔ deref (strtol s).2 ≠ 0 ∨ (strtol s).1 ≤ 0) ∧
    (inputValid ['-', '1', '\x00'] converted).1 = false ∧
    (inputValid ['0', '\x00'] converted).1 = false ∧
    (inputValid ['a', 'b', 'c', '\x00'] converted).1 = false ∧
    (inputValid [] converted).1 = false ∧
    (inputValid ['\x00'] converted).1 = false := by
  refine ⟨?_, ?_, ?_, ?_, ?_, ?_, ?_⟩
  rotate_left 2
  · rw [inputValid_flag]; decide
  · rw [inputValid_flag]; decide
  · rw [inputValid_flag]; decide
  · rw [inputValid_flag]; decide
  · rw [inputValid_flag]; decide
  · unfold inputValid
    by_cases h0 : deref (strtol s).2 = 0 <;> by_cases hp : (strtol s).1 ≤ 0 <;>
      simp [h0, hp]
    omega
  · unfold inputValid
    by_cases h0 : deref (strtol s).2 = 0 <;> by_cases hp : (strtol s).1 ≤ 0 <;>
      simp [h0, hp]

/-! ## Every text of the classifier is one line -/

theorem digitChar_isDigit (n : Nat) (h : n < 10) : (Nat.digitChar n).isDigit = true := by
  interval_cases n <;> decide

/-- All the characters `Nat.toDigitsCore` produces in base 10 are digits. -/
theorem toDigitsCore_digits (fuel : Nat) :
    ∀ n ds, (∀ c ∈ ds, c.isDigit = true) →
      ∀ c ∈ Nat.toDigitsCore 10 fuel n ds, c.isDigit = true := by
  induction fuel with
  | zero => intro n ds h; simpa [Nat.toDigitsCore] using h
  | succ fuel ih =>
    intro n ds h
    have hcons : ∀ c ∈ Nat.digitChar (n % 10) :: ds, c.isDigit = true := by
      intro c hc
      rcases List.mem_cons.mp hc with rfl | hc
      · exact digitChar_isDigit _ (Nat.mod_lt _ (by decide))
      · exact h c hc
    by_cases hq : n / 10 = 0
    · simpa [Nat.toDigitsCore, hq] using hcons
    · have := ih (n / 10) _ hcons
      simpa [Nat.toDigitsCore, hq] using this

/-- The decimal representation of a number holds no line feed. -/
theorem repr_no_newline (v : Nat) : '\n' ∉ (Nat.repr v).data := by
  intro h
  have := toDigitsCore_digits (v + 1) v [] (by simp) '\n' h
  exact absurd this (by decide)

/-- Every text `printOutput` writes is one line: a label without line feed, followed by a
blank and the line end `\r\n`. -/
theorem printOutput_line (v : Nat) :
    ∃ label : String, printOutput v = label ++ " \r\n" ∧ '\n' ∉ label.data := by
  unfold printOutput
  split
  · exact ⟨"0", by decide, by decide⟩
  split
  · exact ⟨"FizzBuzz", by decide, by decide⟩
  split
  · exact ⟨"Buzz", by decide, by decide⟩
  split
  · exact ⟨"Fizz", by decide, by decide⟩
  split
  · exact ⟨"BuzzFizz", by decide, by decide⟩
  · exact ⟨Nat.repr v, rfl, repr_no_newline v⟩

/-! ## The dispatcher on a valid count -/

/-- An argument that starts with a digit is not the reserved argument `--test`. -/
theorem strcmp_test_of_digits (s : List Char) (hne : cstr s ≠ [])
    (hd : ∀ c ∈ cstr s, isdigit c = true) : strcmpIsZero s "--test".toList = false := by
  obtain ⟨c, cs, hs⟩ := List.exists_cons_of_ne_nil hne
  have hc : isdigit c = true := hd c (by rw [hs]; exact List.mem_cons_self _ _)
  have ht : cstr "--test".toList = ['-', '-', 't', 'e', 's', 't'] := by decide
  have h1 : c ≠ '-' := by
    rintro rfl
    exact absurd hc (by decide)
  simp only [strcmpIsZero, hs, ht, beq_eq_false_iff_ne, ne_eq, List.cons.injEq, not_and]
  intro h
  exact absurd h h1

/-- The loop of `main`, entered at counter `i` after the calls at `0, ..., i - 1` of a walk
started in `st0`, writes the labels of the values the walk returns at `i, ..., n - 1`. -/
theorem mainLoop_output (n : Nat) (h : n ≤ UPPER_LIMIT) (st0 : GenState) :
    ∀ k i, n - i = k → i ≤ n →
      (mainLoop n h (walk st0 i).1 i).2 =
        (List.range' i (n - i)).map (fun j => printOutput (walkResult st0 j)) := by
  intro k
  induction k with
  | zero =>
    intro i hk hi
    have hin : ¬ i < n := by omega
    rw [mainLoop]
    simp [hin, hk]
  | succ k ih =>
    intro i hk hi
    have hin : i < n := by omega
    have h92 : n ≤ 92 := h
    have hwrap : (i + 1) % 256 = i + 1 := by omega
    have hstate : (calculateFibonacci (walk st0 i).1 i (i == 0)).2 = (walk st0 (i + 1)).1 := rfl
    rw [mainLoop]
    simp only [hin, if_true, hwrap, hstate]
    rw [ih (i + 1) (by omega) (by omega), hk]
    have hk' : n - (i + 1) = k := by omega
    rw [hk', List.range'_succ, List.map_cons]
    rfl

/-- Output and exit code of `main` for a single argument that is a decimal numeral with
a value from 1 to 92. -/
theorem main_numeral (prog s : List Char) (hne : cstr s ≠ [])
    (hd : ∀ c ∈ cstr s, isdigit c = true)
    (h1 : 1 ≤ decimalValue (cstr s)) (h92 : decimalValue (cstr s) ≤ 92) :
    main [prog, s] =
      (0, (List.range (decimalValue (cstr s))).map (fun i => printOutput (Nat.fib i))) := by
  have hvalid := inputValid_numeral s 0 hne hd h1 (by omega)
  have hlim : ¬ decimalValue (cstr s) > UPPER_LIMIT := by
    simp only [UPPER_LIMIT]
    omega
  have hloop := mainLoop_output (decimalValue (cstr s)) (Nat.le_of_not_lt hlim) initState
    (decimalValue (cstr s)) 0 rfl (Nat.zero_le _)
  have hwalk0 : (walk initState 0).1 = initState := rfl
  rw [hwalk0, Nat.sub_zero, ← List.range_eq_range'] at hloop
  have hmap : (List.range (decimalValue (cstr s))).map (fun j => printOutput (walkResult initState j))
      = (List.range (decimalValue (cstr s))).map (fun i => printOutput (Nat.fib i)) := by
    apply List.map_congr_left
    intro j hj
    have hj' : j < decimalValue (cstr s) := List.mem_range.mp hj
    simp only [walkResult_seed initState rfl rfl j (by omega)]
  simp only [main, strcmp_test_of_digits s hne hd, Bool.false_eq_true, if_false, hvalid, if_true,
    hlim, dite_false, hloop, hmap]

/-- C2. For a single argument that is a decimal numeral with value `n`, `1 ≤ n ≤ 92`,
`main` run from the initial process state returns 0 and writes exactly `n` texts, the
`i`-th of which (for `i = 0, ..., n - 1`) is the text `printOutput` writes for the
Fibonacci number `F(i)`; each text is one line. -/
theorem main_prints_labels (prog s : List Char) (n : Nat) (hne : cstr s ≠ [])
    (hd : ∀ c ∈ cstr s, isdigit c = true) (hn : decimalValue (cstr s) = n)
    (h1 : 1 ≤ n) (h92 : n ≤ 92) :
    (main [prog, s]).1 = 0 ∧
    (main [prog, s]).2.length = n ∧
    (∀ i, i < n → (main [prog, s]).2[i]? = some (printOutput (Nat.fib i))) ∧
    (main [prog, s]).2 = (List.range n).map (fun i => printOutput (Nat.fib i)) ∧
    (∀ t ∈ (main [prog, s]).2, ∃ label : String, t = label ++ " \r\n" ∧ '\n' ∉ label.data) := by
  subst hn
  rw [main_numeral prog s hne hd h1 h92]
  refine ⟨rfl, by simp, ?_, rfl, ?_⟩
  · intro i hi
    simp [List.getElem?_map, List.getElem?_range hi]
  · intro t ht
    obtain ⟨i, _, rfl⟩ := List.mem_map.mp ht
    exact printOutput_line _

/-- The arguments `fib 7`: exit code 0 and seven lines. -/
theorem main_prints_labels_witness :
    (main ["fib".toList, ['7']]).1 = 0 ∧
    (main ["fib".toList, ['7']]).2.length = 7 ∧
    (main ["fib".toList, ['7']]).2 =
      ["0 \r\n", "1 \r\n", "1 \r\n", "2 \r\n", "Buzz \r\n", "Fizz \r\n", "8 \r\n"] :=
  ⟨(main_prints_labels "fib".toList ['7'] 7 (by decide) (by decide) (by decide) (by decide)
      (by decide)).1,
   (main_prints_labels "fib".toList ['7'] 7 (by decide) (by decide) (by decide) (by decide)
      (by decide)).2.1,
   (main_prints_labels "fib".toList ['7'] 7 (by decide) (by decide) (by decide) (by decide)
      (by decide)).2.2.2.1.trans (by decide)⟩

/-! ## The classifier -/

/-- The decimal digits `Nat.toDigitsCore` produces start with a digit, which is not `0`
unless the number is 0. -/
theorem toDigitsCore_head (fuel : Nat) :
    ∀ n ds, n < fuel →
      ∃ c cs, Nat.toDigitsCore 10 fuel n ds = c :: cs ∧ c.isDigit = true ∧ (n ≠ 0 → c ≠ '0') := by
  induction fuel with
  | zero => intro n ds h; omega
  | succ fuel ih =>
    intro n ds h
    by_cases hq : n / 10 = 0
    · have hn : n < 10 := by omega
      refine ⟨Nat.digitChar (n % 10), ds, by simp [Nat.toDigitsCore, hq], ?_, ?_⟩
      · interval_cases n <;> decide
      · intro hn0
        interval_cases n <;> first | omega | decide
    · obtain ⟨c, cs, hc, hdig, hnz⟩ := ih (n / 10) (Nat.digitChar (n % 10) :: ds) (by omega)
      exact ⟨c, cs, by simp [Nat.toDigitsCore, hq, hc], hdig, fun _ => hnz hq⟩

/-- The decimal representation of a number starts with a digit, which is not `0` unless
the number is 0. -/
theorem repr_head (v : Nat) :
    ∃ c cs, (Nat.repr v).data = c :: cs ∧ c.isDigit = true ∧ (v ≠ 0 → c ≠ '0') :=
  toDigitsCore_head (v + 1) v [] (Nat.lt_succ_self v)

/-- A printed number is none of the texts that start with another character than a digit. -/
theorem repr_line_ne (v : Nat) (c : Char) (cs : List Char) (hc : c.isDigit = false) :
    Nat.repr v ++ " \r\n" ≠ ⟨c :: cs⟩ := by
  obtain ⟨d, ds, hd, hdig, _⟩ := repr_head v
  intro h
  have hdata := congrArg String.data h
  rw [String.data_append, hd] at hdata
  simp only [List.cons_append, List.cons.injEq] at hdata
  rw [hdata.1, hc] at hdig
  exact Bool.noConfusion hdig

/-- A printed number other than 0 is not the text written for 0. -/
theorem repr_line_ne_zero (v : Nat) (hv : v ≠ 0) : Nat.repr v ++ " \r\n" ≠ "0 \r\n" := by
  obtain ⟨d, ds, hd, _, hnz⟩ := repr_head v
  intro h
  have hdata := congrArg String.data h
  rw [String.data_append, hd] at hdata
  have h0 : ("0 \r\n" : String).data = ['0', ' ', '\r', '\n'] := rfl
  rw [h0] at hdata
  simp only [List.cons_append, List.cons.injEq] at hdata
  exact hnz hv hdata.1

theorem printOutput_zero : printOutput 0 = "0 \r\n" := rfl

theorem printOutput_fizzBuzz {v : Nat} (h0 : v ≠ 0) (h15 : v % 15 = 0) :
    printOutput v = "FizzBuzz \r\n" := by
  simp [printOutput, h0, h15]

theorem printOutput_buzz {v : Nat} (h15 : v % 15 ≠ 0) (h3 : v % 3 = 0) :
    printOutput v = "Buzz \r\n" := by
  have h0 : v ≠ 0 := by rintro rfl; simp at h15
  simp [printOutput, h0, h15, h3]

theorem printOutput_fizz {v : Nat} (h3 : v % 3 ≠ 0) (h5 : v % 5 = 0) :
    printOutput v = "Fizz \r\n" := by
  have h0 : v ≠ 0 := by rintro rfl; simp at h3
  have h15 : v % 15 ≠ 0 := by omega
  simp [printOutput, h0, h15, h3, h5]

theorem printOutput_other {v : Nat} (h3 : v % 3 ≠ 0) (h5 : v % 5 ≠ 0) :
    printOutput v = if isPrime v then "BuzzFizz \r\n" else Nat.repr v ++ " \r\n" := by
  have h0 : v ≠ 0 := by rintro rfl; simp at h3
  have h15 : v % 15 ≠ 0 := by omega
  simp [printOutput, h0, h15, h3, h5]

/-- C7. The decision table of `printOutput`: the text written is that of the label `0` iff
`v = 0`; of `FizzBuzz` iff `v ≠ 0` and 15 divides `v`; of `Buzz` iff 3 divides `v` and 5
does not; of `Fizz` iff 5 divides `v` and 3 does not; and for a `v` that neither 3 nor 5
divides it is that of `BuzzFizz` when `isPrime v` is true and the decimal digits of `v`
when it is false. -/
theorem printOutput_table (v : Nat) :
    (printOutput v = "0 \r\n" ↔ v = 0) ∧
    (printOutput v = "FizzBuzz \r\n" ↔ v ≠ 0 ∧ 15 ∣ v) ∧
    (printOutput v = "Buzz \r\n" ↔ 3 ∣ v ∧ ¬ 5 ∣ v) ∧
    (printOutput v = "Fizz \r\n" ↔ 5 ∣ v ∧ ¬ 3 ∣ v) ∧
    (v ≠ 0 → ¬ 3 ∣ v → ¬ 5 ∣ v →
      printOutput v = if isPrime v then "BuzzFizz \r\n" else Nat.repr v ++ " \r\n") := by
  have hB : Nat.repr v ++ " \r\n" ≠ "Buzz \r\n" := repr_line_ne v 'B' _ (by decide)
  have hF : Nat.repr v ++ " \r\n" ≠ "Fizz \r\n" := repr_line_ne v 'F' _ (by decide)
  have hFB : Nat.repr v ++ " \r\n" ≠ "FizzBuzz \r\n" := repr_line_ne v 'F' _ (by decide)
  by_cases h0 : v = 0
  · subst h0
    rw [printOutput_zero]
    refine ⟨by simp, ?_, ?_, ?_, by simp⟩
    · simp only [ne_eq, not_true_eq_false, false_and, iff_false]; decide
    · simp only [dvd_zero, not_true_eq_false, and_false, iff_false]; decide
    · simp only [dvd_zero, not_true_eq_false, and_false, iff_false]; decide
  by_cases h15 : v % 15 = 0
  · rw [printOutput_fizzBuzz h0 h15]
    refine ⟨?_, ?_, ?_, ?_, ?_⟩
    · simp only [h0, iff_false]; decide
    · simp only [ne_eq, h0, not_false_eq_true, true_and, true_iff]; omega
    · have : ¬ (3 ∣ v ∧ ¬ 5 ∣ v) := by omega
      simp only [this, iff_false]; decide
    · have : ¬ (5 ∣ v ∧ ¬ 3 ∣ v) := by omega
      simp only [this, iff_false]; decide
    · intro _ h3 _; omega
  by_cases h3 : v % 3 = 0
  · rw [printOutput_buzz h15 h3]
    refine ⟨?_, ?_, ?_, ?_, ?_⟩
    · simp only [h0, iff_false]; decide
    · have : ¬ (v ≠ 0 ∧ 15 ∣ v) := by omega
      simp only [this, iff_false]; decide
    · simp only [true_iff]; omega
    · have : ¬ (5 ∣ v ∧ ¬ 3 ∣ v) := by omega
      simp only [this, iff_false]; decide
    · intro _ h3 _; omega
  by_cases h5 : v % 5 = 0
  · rw [printOutput_fizz h3 h5]
    refine ⟨?_, ?_, ?_, ?_, ?_⟩
    · simp only [h0, iff_false]; decide
    · have : ¬ (v ≠ 0 ∧ 15 ∣ v) := by omega
      simp only [this, iff_false]; decide
    · have : ¬ (3 ∣ v ∧ ¬ 5 ∣ v) := by omega
      simp only [this, iff_false]; decide
    · simp only [true_iff]; omega
    · intro _ _ h5; omega
  have n15 : ¬ (v ≠ 0 ∧ 15 ∣ v) := by omega
  have n3 : ¬ (3 ∣ v ∧ ¬ 5 ∣ v) := by omega
  have n5 : ¬ (5 ∣ v ∧ ¬ 3 ∣ v) := by omega
  rw [printOutput_other h3 h5]
  simp only [h0, n15, n3, n5, iff_false]
  by_cases hp : isPrime v = true
  · simp only [hp, if_true]
    exact ⟨by decide, by decide, by decide, by decide, fun _ _ _ => trivial⟩
  · simp only [hp, Bool.false_eq_true, if_false]
    exact ⟨repr_line_ne_zero v h0, hFB, hB, hF, fun _ _ _ => trivial⟩

/-- The values 13 (which `isPrime` accepts) and 8 (which it rejects) in the last rows of the
decision table. -/
theorem printOutput_table_witness :
    (13 ≠ 0 ∧ ¬ 3 ∣ 13 ∧ ¬ 5 ∣ 13 ∧ printOutput 13 = "BuzzFizz \r\n") ∧
    (8 ≠ 0 ∧ ¬ 3 ∣ 8 ∧ ¬ 5 ∣ 8 ∧ printOutput 8 = "8 \r\n") :=
  ⟨⟨by decide, by decide, by decide,
      ((printOutput_table 13).2.2.2.2 (by decide) (by decide) (by decide)).trans
        (by simp [isPrime, isPrimeLoop])⟩,
   ⟨by decide, by decide, by decide,
      ((printOutput_table 8).2.2.2.2 (by decide) (by decide) (by decide)).trans (by decide)⟩⟩

/-- C8, as stated, fails at 0: 15 divides 0, and the text written for 0 is that of the
label `0`, not of `FizzBuzz`. -/
theorem fizzBuzz_not_at_zero :
    15 ∣ 0 ∧ printOutput 0 = "0 \r\n" ∧ printOutput 0 ≠ "FizzBuzz \r\n" :=
  ⟨by decide, by decide, by decide⟩

/-- C8, amended. For every `v` other than 0 that 15 divides, `printOutput` writes the text
of the label `FizzBuzz`, whatever `isPrime v` is. -/
theorem fizzBuzz_of_dvd (v : Nat) (h0 : v ≠ 0) (h15 : 15 ∣ v) :
    printOutput v = "FizzBuzz \r\n" :=
  printOutput_fizzBuzz h0 (Nat.mod_eq_zero_of_dvd h15)

/-- The Fibonacci number `F(20) = 6765` is written as `FizzBuzz`. -/
theorem fizzBuzz_of_dvd_witness :
    6765 ≠ 0 ∧ 15 ∣ 6765 ∧ printOutput 6765 = "FizzBuzz \r\n" :=
  ⟨by decide, by decide, fizzBuzz_of_dvd 6765 (by decide) (by decide)⟩

/-- C9. At `v = 2`, a prime that is not 0 and that neither 3 nor 5 divides, `printOutput`
writes the decimal digits `2`, not the text of the label `BuzzFizz`.  The value 2 is the
one a fresh walk returns at index 3. -/
theorem buzzFizz_misses_two :
    Nat.Prime 2 ∧ 2 ≠ 0 ∧ ¬ 3 ∣ 2 ∧ ¬ 5 ∣ 2 ∧
    printOutput 2 = "2 \r\n" ∧ printOutput 2 ≠ "BuzzFizz \r\n" ∧
    walkResult initState 3 = 2 :=
  ⟨Nat.prime_two, by decide, by decide, by decide, by decide, by decide, by decide⟩

/-- C10. The number 2 is prime and `isPrime 2` is false. -/
theorem isPrime_two_false : Nat.Prime 2 ∧ isPrime 2 = false :=
  ⟨Nat.prime_two, by decide⟩

/-! ## The primality check on every input -/

/-- The loop of `isPrime` entered at `i` returns true exactly when none of
`i, i + 2, i + 4, ...` below `upperLimit` divides `toCheck`. -/
theorem isPrimeLoop_true_iff (n u : Nat) :
    ∀ k i, u - i ≤ k → 1 ≤ i →
      (isPrimeLoop n u i = true ↔ ∀ m, i + 2 * m < u → ¬ (i + 2 * m) ∣ n) := by
  intro k
  induction k with
  | zero =>
    intro i hk _
    have hiu : ¬ i < u := by omega
    rw [isPrimeLoop]
    simp only [hiu, if_false, true_iff]
    intro m hm
    omega
  | succ k ih =>
    intro i hk hi
    rw [isPrimeLoop]
    by_cases hiu : i < u
    · by_cases hdiv : n % i = 0
      · simp only [hiu, if_true, hdiv, beq_self_eq_true, Bool.false_eq_true, false_iff,
          not_forall, not_not]
        exact ⟨0, by simpa using hiu, by simpa using Nat.dvd_of_mod_eq_zero hdiv⟩
      · have hbeq : (n % i == 0) = false := by simpa using hdiv
        simp only [hiu, if_true, hbeq, Bool.false_eq_true, if_false]
        rw [ih (i + 2) (by omega) (by omega)]
        constructor
        · intro h m hm
          cases m with
          | zero =>
            intro hd
            exact hdiv (Nat.mod_eq_zero_of_dvd (by simpa using hd))
          | succ m =>
            have := h m (by omega)
            have he : i + 2 * (m + 1) = i + 2 + 2 * m := by ring
            rw [he]
            exact this
        · intro h m hm
          have := h (m + 1) (by omega)
          have he : i + 2 * (m + 1) = i + 2 + 2 * m := by ring
          rw [he] at this
          exact this
    · simp only [hiu, if_false, true_iff]
      intro m hm
      omega

/-- The function `isPrime` returns true exactly for the primes other than 2. -/
theorem isPrime_eq_true_iff (n : Nat) : isPrime n = true ↔ Nat.Prime n ∧ n ≠ 2 := by
  unfold isPrime
  by_cases h1 : n ≤ 1
  · simp only [h1, if_true, Bool.false_eq_true, false_iff, not_and]
    intro hp
    have := hp.two_le
    omega
  by_cases h2 : n % 2 = 0
  · simp only [h1, if_false, h2, beq_self_eq_true, if_true, Bool.false_eq_true, false_iff,
      not_and, not_not]
    intro hp
    rcases (Nat.dvd_prime hp).mp (Nat.dvd_of_mod_eq_zero h2) with h | h
    · omega
    · exact h.symm
  have hbeq : (n % 2 == 0) = false := by simpa using h2
  simp only [h1, if_false, hbeq, Bool.false_eq_true]
  rw [isPrimeLoop_true_iff n (n / 2) (n / 2 - 3) 3 (le_refl _) (by decide)]
  constructor
  · intro h
    refine ⟨?_, by omega⟩
    rw [Nat.prime_def_minFac]
    refine ⟨by omega, ?_⟩
    by_contra hne
    have hn1 : n ≠ 1 := by omega
    have hpp : Nat.Prime n.minFac := Nat.minFac_prime hn1
    have hpd : n.minFac ∣ n := Nat.minFac_dvd n
    obtain ⟨q, hq⟩ := hpd
    have hp2 := hpp.two_le
    have hpodd : n.minFac % 2 = 1 := by
      by_contra hc
      have h2p : 2 ∣ n.minFac := Nat.dvd_of_mod_eq_zero (by omega)
      have : 2 ∣ n := dvd_trans h2p (Nat.minFac_dvd n)
      omega
    have hqodd : q % 2 = 1 := by
      by_contra hc
      have h2q : 2 ∣ q := Nat.dvd_of_mod_eq_zero (by omega)
      have : 2 ∣ n := by
        rw [hq]
        exact dvd_mul_of_dvd_right h2q _
      omega
    have hq1 : q ≠ 1 := by
      rintro rfl
      rw [mul_one] at hq
      exact hne hq.symm
    have hq3 : 3 ≤ q := by omega
    have hmul : n.minFac * 3 ≤ n := by
      calc n.minFac * 3 ≤ n.minFac * q := Nat.mul_le_mul_left _ hq3
        _ = n := hq.symm
    have hm : 3 + 2 * ((n.minFac - 3) / 2) = n.minFac := by omega
    have := h ((n.minFac - 3) / 2) (by omega)
    rw [hm] at this
    exact this (Nat.minFac_dvd n)
  · rintro ⟨hp, _⟩ m hm hd
    rcases (Nat.dvd_prime hp).mp hd with h | h <;> omega

/-- Away from 2, and for a value that is not 0 and that neither 3 nor 5 divides, the text
of the label `BuzzFizz` is written exactly for the primes. -/
theorem buzzFizz_iff_prime_of_ne_two (v : Nat) (h3 : ¬ 3 ∣ v) (h5 : ¬ 5 ∣ v) (h2 : v ≠ 2) :
    printOutput v = "BuzzFizz \r\n" ↔ Nat.Prime v := by
  have h3' : v % 3 ≠ 0 := by omega
  have h5' : v % 5 ≠ 0 := by omega
  rw [printOutput_other h3' h5']
  by_cases hp : isPrime v = true
  · have := (isPrime_eq_true_iff v).mp hp
    simp only [hp, if_true, true_iff]
    exact this.1
  · have hnp : ¬ Nat.Prime v := fun hprime => hp ((isPrime_eq_true_iff v).mpr ⟨hprime, h2⟩)
    simp only [hp, Bool.false_eq_true, if_false, hnp, iff_false]
    exact repr_line_ne v 'B' _ (by decide)

/-! ## The dispatcher on every argument vector -/

/-- The reserved argument `--test` is not a number for the validator. -/
theorem inputValid_test_arg (arg : List Char) (converted : Nat)
    (h : strcmpIsZero arg "--test".toList = true) :
    inputValid arg converted = (false, converted) := by
  have ht : cstr "--test".toList = ['-', '-', 't', 'e', 's', 't'] := by decide
  simp only [strcmpIsZero, ht, beq_iff_eq] at h
  obtain ⟨r, hs, _⟩ := cstr_split arg
  rw [h] at hs
  subst hs
  have h1 : isspace '-' = false := by decide
  have h2 : isdigit '-' = false := by decide
  have h3 : ¬ (deref ('-' :: '-' :: 't' :: 'e' :: 's' :: 't' :: r) = 0) := by
    simp only [deref]
    decide
  have hstr : strtol ('-' :: '-' :: 't' :: 'e' :: 's' :: 't' :: r)
      = (0, '-' :: '-' :: 't' :: 'e' :: 's' :: 't' :: r) := by
    simp only [strtol, List.dropWhile, h1, scanSign, h2, Bool.false_eq_true, if_false]
  simp only [List.cons_append, List.nil_append]
  simp only [inputValid, hstr, beq_iff_eq, h3, if_false]

/-- An argument the validator accepts is not the reserved argument `--test`. -/
theorem strcmp_test_of_valid (arg : List Char) (hv : (inputValid arg 0).1 = true) :
    strcmpIsZero arg "--test".toList = false := by
  by_contra hc
  have ht : strcmpIsZero arg "--test".toList = true := by simpa using hc
  rw [inputValid_test_arg arg 0 ht] at hv
  exact Bool.noConfusion hv

/-- A wrong number of arguments: the usage message, exit code 0, no call. -/
theorem main_usage (argv : List (List Char)) (h : argv.length ≠ 2) :
    main argv = (0, printError .ERROR_INPUT_EXCESS) ∧ mainCalls argv = [] := by
  match argv, h with
  | [], _ => exact ⟨rfl, rfl⟩
  | [_], _ => exact ⟨rfl, rfl⟩
  | [_, _], h => exact absurd rfl h
  | _ :: _ :: _ :: _, _ => exact ⟨rfl, rfl⟩

/-- The reserved argument: the self tests run, exit code 0. -/
theorem main_test (prog arg : List Char) (h : strcmpIsZero arg "--test".toList = true) :
    main [prog, arg] = (0, (runTests initState).2.1) := by
  simp only [main, h, if_true]

/-- An argument the validator rejects: the conversion message, exit code 0, no call. -/
theorem main_conversion (prog arg : List Char) (ht : strcmpIsZero arg "--test".toList = false)
    (hv : (inputValid arg 0).1 = false) :
    main [prog, arg] = (0, printError .ERROR_INPUT_CONVERSION) ∧ mainCalls [prog, arg] = [] := by
  simp only [main, mainCalls, ht, hv, Bool.false_eq_true, if_false, and_self]

/-- A count above the limit: the limit message, exit code -1, no call. -/
theorem main_limit (prog arg : List Char) (hv : (inputValid arg 0).1 = true)
    (hn : (inputValid arg 0).2 > 92) :
    main [prog, arg] = (-1, printError .ERROR_INPUT_UPPER_LIMIT) ∧ mainCalls [prog, arg] = [] := by
  have ht := strcmp_test_of_valid arg hv
  have hlim : (inputValid arg 0).2 > UPPER_LIMIT := hn
  simp only [main, mainCalls, ht, hv, Bool.false_eq_true, if_false, if_true, hlim, dite_true,
    and_self]

theorem calcIndices_foldr (f : Nat → Nat) (l : List Nat) :
    calcIndices (l.foldr (fun j acc => Call.calc j (j == 0) :: Call.print (f j) :: acc) []) = l := by
  induction l with
  | nil => rfl
  | cons a l ih => simp only [List.foldr_cons, calcIndices, ih]

theorem printedValues_foldr (f : Nat → Nat) (l : List Nat) :
    printedValues (l.foldr (fun j acc => Call.calc j (j == 0) :: Call.print (f j) :: acc) [])
      = l.map f := by
  induction l with
  | nil => rfl
  | cons a l ih => simp only [List.foldr_cons, printedValues, ih, List.map_cons]

/-- The calls the loop of `main` issues when entered at counter `i` after the calls at
`0, ..., i - 1` of a walk started in `st0`: for each `j = i, ..., n - 1` in turn
`calculateFibonacci(j, j == 0)` and then `printOutput` on the value returned. -/
theorem mainLoopCalls_eq (n : Nat) (h : n ≤ UPPER_LIMIT) (st0 : GenState) :
    ∀ k i, n - i = k → i ≤ n →
      mainLoopCalls n h (walk st0 i).1 i =
        (List.range' i (n - i)).foldr
          (fun j acc => Call.calc j (j == 0) :: Call.print (walkResult st0 j) :: acc) [] := by
  intro k
  induction k with
  | zero =>
    intro i hk hi
    have hin : ¬ i < n := by omega
    rw [mainLoopCalls]
    simp [hin, hk]
  | succ k ih =>
    intro i hk hi
    have hin : i < n := by omega
    have h92 : n ≤ 92 := h
    have hwrap : (i + 1) % 256 = i + 1 := by omega
    have hstate : (calculateFibonacci (walk st0 i).1 i (i == 0)).2 = (walk st0 (i + 1)).1 := rfl
    rw [mainLoopCalls]
    simp only [hin, if_true, hwrap, hstate]
    rw [ih (i + 1) (by omega) (by omega), hk]
    have hk' : n - (i + 1) = k := by omega
    rw [hk', List.range'_succ, List.foldr_cons]
    rfl

/-- Exit code, output and calls of `main` for every argument the validator accepts with
a count of at most 92. -/
theorem main_valid (prog arg : List Char) (hv : (inputValid arg 0).1 = true)
    (h92 : (inputValid arg 0).2 ≤ 92) :
    main [prog, arg] =
      (0, (List.range (inputValid arg 0).2).map (fun i => printOutput (Nat.fib i))) ∧
    mainCalls [prog, arg] =
      (List.range (inputValid arg 0).2).foldr
        (fun j acc => Call.calc j (j == 0) :: Call.print (walkResult initState j) :: acc) [] := by
  have ht := strcmp_test_of_valid arg hv
  have hlim : ¬ (inputValid arg 0).2 > UPPER_LIMIT := by
    simp only [UPPER_LIMIT]
    omega
  have hwalk0 : (walk initState 0).1 = initState := rfl
  have hloop := mainLoop_output (inputValid arg 0).2 (Nat.le_of_not_lt hlim) initState
    (inputValid arg 0).2 0 rfl (Nat.zero_le _)
  have hcalls := mainLoopCalls_eq (inputValid arg 0).2 (Nat.le_of_not_lt hlim) initState
    (inputValid arg 0).2 0 rfl (Nat.zero_le _)
  rw [hwalk0, Nat.sub_zero, ← List.range_eq_range'] at hloop hcalls
  have hmap : (List.range (inputValid arg 0).2).map (fun j => printOutput (walkResult initState j))
      = (List.range (inputValid arg 0).2).map (fun i => printOutput (Nat.fib i)) := by
    apply List.map_congr_left
    intro j hj
    have hj' : j < (inputValid arg 0).2 := List.mem_range.mp hj
    simp only [walkResult_seed initState rfl rfl j (by omega)]
  constructor
  · simp only [main, ht, Bool.false_eq_true, if_false, hv, if_true, hlim, dite_false, hloop, hmap]
  · simp only [mainCalls, ht, Bool.false_eq_true, if_false, hv, if_true, hlim, dite_false, hcalls]

/-- C11. The exit code of `main` is -1 exactly when there is one argument, it is not
`--test`, `inputValid` accepts it and the count is greater than 92; in every other case it
is 0.  The count 92 gives 0, the count 93 gives -1, `--test` gives 0. -/
theorem main_exit_code (argv : List (List Char)) :
    ((main argv).1 = -1 ↔
      ∃ prog arg, argv = [prog, arg] ∧ strcmpIsZero arg "--test".toList = false ∧
        (inputValid arg 0).1 = true ∧ 92 < (inputValid arg 0).2) ∧
    ((main argv).1 ≠ -1 ↔ (main argv).1 = 0) ∧
    (main ["fib".toList, ['9', '2']]).1 = 0 ∧
    (main ["fib".toList, ['9', '3']]).1 = -1 ∧
    (main ["fib".toList, "--test".toList]).1 = 0 := by
  refine ⟨?_, ?_, ?_, ?_, ?_⟩
  · by_cases hlen : argv.length = 2
    · obtain ⟨prog, arg, rfl⟩ := List.length_eq_two.mp hlen
      by_cases ht : strcmpIsZero arg "--test".toList = true
      · rw [main_test prog arg ht]
        constructor
        · intro h
          simp at h
        · rintro ⟨p, a, hpa, hta, _⟩
          simp only [List.cons.injEq, and_true] at hpa
          obtain ⟨_, rfl⟩ := hpa
          rw [ht] at hta
          exact Bool.noConfusion hta
      by_cases hv : (inputValid arg 0).1 = true
      · by_cases hn : (inputValid arg 0).2 > 92
        · rw [(main_limit prog arg hv hn).1]
          simp only [true_iff]
          exact ⟨prog, arg, rfl, by simpa using ht, hv, hn⟩
        · rw [(main_valid prog arg hv (by omega)).1]
          constructor
          · intro h
            simp at h
          · rintro ⟨p, a, hpa, _, _, hgt⟩
            simp only [List.cons.injEq, and_true] at hpa
            obtain ⟨_, rfl⟩ := hpa
            omega
      · rw [(main_conversion prog arg (by simpa using ht) (by simpa using hv)).1]
        constructor
        · intro h
          simp at h
        · rintro ⟨p, a, hpa, _, hva, _⟩
          simp only [List.cons.injEq, and_true] at hpa
          obtain ⟨_, rfl⟩ := hpa
          exact absurd hva hv
    · rw [(main_usage argv hlen).1]
      constructor
      · intro h
        simp at h
      · rintro ⟨p, a, rfl, _⟩
        exact absurd rfl hlen
  · by_cases hlen : argv.length = 2
    · obtain ⟨prog, arg, rfl⟩ := List.length_eq_two.mp hlen
      by_cases ht : strcmpIsZero arg "--test".toList = true
      · rw [main_test prog arg ht]
        simp
      by_cases hv : (inputValid arg 0).1 = true
      · by_cases hn : (inputValid arg 0).2 > 92
        · rw [(main_limit prog arg hv hn).1]
          simp
        · rw [(main_valid prog arg hv (by omega)).1]
          simp
      · rw [(main_conversion prog arg (by simpa using ht) (by simpa using hv)).1]
        simp
    · rw [(main_usage argv hlen).1]
      simp
  · rw [(main_valid "fib".toList ['9', '2'] (by decide) (by decide)).1]
  · rw [(main_limit "fib".toList ['9', '3'] (by decide) (by decide)).1]
  · rw [main_test "fib".toList "--test".toList (by decide)]

/-- C12. A run that ends in an error issues no call of `calculateFibonacci` or `printOutput`
and writes the error message alone: the four lines of the usage message for a number of
arguments other than one, the two lines of the conversion message for an argument that
`inputValid` rejects, the one line that names the limit 92 for a count above 92. -/
theorem no_partial_results (argv : List (List Char)) :
    (argv.length ≠ 2 →
      (main argv).2 = printError .ERROR_INPUT_EXCESS ∧ (main argv).2.length = 4 ∧
      mainCalls argv = []) ∧
    (∀ prog arg, argv = [prog, arg] → strcmpIsZero arg "--test".toList = false →
      (inputValid arg 0).1 = false →
      (main argv).2 = printError .ERROR_INPUT_CONVERSION ∧ (main argv).2.length = 2 ∧
      mainCalls argv = []) ∧
    (∀ prog arg, argv = [prog, arg] → (inputValid arg 0).1 = true → 92 < (inputValid arg 0).2 →
      (main argv).2 = [" the largest fibonacci number that can be calculated is 92 \r\n"] ∧
      mainCalls argv = []) := by
  refine ⟨?_, ?_, ?_⟩
  · intro hlen
    obtain ⟨hm, hc⟩ := main_usage argv hlen
    rw [hm]
    exact ⟨rfl, rfl, hc⟩
  · rintro prog arg rfl ht hv
    obtain ⟨hm, hc⟩ := main_conversion prog arg ht hv
    rw [hm]
    exact ⟨rfl, rfl, hc⟩
  · rintro prog arg rfl hv hn
    obtain ⟨hm, hc⟩ := main_limit prog arg hv hn
    rw [hm]
    exact ⟨by decide, hc⟩

/-- The runs `fib`, `fib abc` and `fib 93`: the error message alone and no call. -/
theorem no_partial_results_witness :
    ((main ["fib".toList]).2 =
        [" incorrect number of inputs \r\n",
         " enter fib --test to test the functions \r\n",
         " enter fib x to calculate the xth fibonacci number \r\n",
         " for example: fib 10 to calculate the 10th number \r\n"] ∧
      mainCalls ["fib".toList] = []) ∧
    ((main ["fib".toList, "abc".toList]).2 =
        [" the input must be a whole number greater than 0 \r\n",
         " for example: fib 10 to calculate the 10th number \r\n"] ∧
      mainCalls ["fib".toList, "abc".toList] = []) ∧
    ((main ["fib".toList, "93".toList]).2 =
        [" the largest fibonacci number that can be calculated is 92 \r\n"] ∧
      mainCalls ["fib".toList, "93".toList] = []) :=
  ⟨⟨((no_partial_results ["fib".toList]).1 (by decide)).1,
      ((no_partial_results ["fib".toList]).1 (by decide)).2.2⟩,
   ⟨((no_partial_results ["fib".toList, "abc".toList]).2.1 _ _ rfl (by decide) (by decide)).1,
      ((no_partial_results ["fib".toList, "abc".toList]).2.1 _ _ rfl (by decide) (by decide)).2.2⟩,
   ⟨((no_partial_results ["fib".toList, "93".toList]).2.2 _ _ rfl (by decide) (by decide)).1,
      ((no_partial_results ["fib".toList, "93".toList]).2.2 _ _ rfl (by decide) (by decide)).2⟩⟩

/-- C20. In a run on an argument that `inputValid` accepts with a count of at most 92, `main`
calls `calculateFibonacci` exactly with the indices `0, 1, ..., count - 1` in this order (so
exactly `count` times, the counter never wrapping), every index is at most 91, hence not
above `UPPER_LIMIT`, the index 92 is never passed, and the values handed to `printOutput`
are the Fibonacci numbers of these indices. -/
theorem normal_run_calls (prog arg : List Char) (hv : (inputValid arg 0).1 = true)
    (h92 : (inputValid arg 0).2 ≤ 92) :
    calcIndices (mainCalls [prog, arg]) = List.range (inputValid arg 0).2 ∧
    (calcIndices (mainCalls [prog, arg])).length = (inputValid arg 0).2 ∧
    (∀ i ∈ calcIndices (mainCalls [prog, arg]),
      i < (inputValid arg 0).2 ∧ i ≤ 91 ∧ ¬ i > UPPER_LIMIT ∧ i < 256) ∧
    92 ∉ calcIndices (mainCalls [prog, arg]) ∧
    printedValues (mainCalls [prog, arg]) = (List.range (inputValid arg 0).2).map Nat.fib ∧
    (main [prog, arg]).2.length = (inputValid arg 0).2 := by
  obtain ⟨hm, hc⟩ := main_valid prog arg hv h92
  have hidx : calcIndices (mainCalls [prog, arg]) = List.range (inputValid arg 0).2 := by
    rw [hc, calcIndices_foldr]
  have hprint : printedValues (mainCalls [prog, arg])
      = (List.range (inputValid arg 0).2).map Nat.fib := by
    rw [hc, printedValues_foldr]
    apply List.map_congr_left
    intro j hj
    have hj' : j < (inputValid arg 0).2 := List.mem_range.mp hj
    exact walkResult_seed initState rfl rfl j (by omega)
  refine ⟨hidx, by rw [hidx, List.length_range], ?_, ?_, hprint, by rw [hm]; simp⟩
  · intro i hi
    rw [hidx] at hi
    have hi' : i < (inputValid arg 0).2 := List.mem_range.mp hi
    refine ⟨hi', by omega, ?_, by omega⟩
    simp only [UPPER_LIMIT]
    omega
  · rw [hidx]
    intro hmem
    have := List.mem_range.mp hmem
    omega

/-- The largest count, `fib 92`: the indices 0 to 91 and no other. -/
theorem normal_run_calls_witness :
    calcIndices (mainCalls ["fib".toList, "92".toList]) = List.range 92 ∧
    92 ∉ calcIndices (mainCalls ["fib".toList, "92".toList]) ∧
    (main ["fib".toList, "92".toList]).2.length = 92 :=
  ⟨(normal_run_calls "fib".toList "92".toList (by decide) (by decide)).1,
   (normal_run_calls "fib".toList "92".toList (by decide) (by decide)).2.2.2.1,
   (normal_run_calls "fib".toList "92".toList (by decide) (by decide)).2.2.2.2.2⟩

/-! ## The self tests -/

/-- The loop of `test_calculateFibonacci` entered at counter `i` runs its body for
`i, i + 1, ..., 100` in turn. -/
theorem testLoop_eq_foldl :
    ∀ k i st s, 101 - i = k →
      testLoop st s i =
        (List.range' i k).foldl
          (fun (p : GenState × Samples) j =>
            ((calculateFibonacci p.1 j (j == 0)).2,
              if j == 2 then { p.2 with f2 := (calculateFibonacci p.1 j (j == 0)).1 }
              else if j == 10 then { p.2 with f10 := (calculateFibonacci p.1 j (j == 0)).1 }
              else if j == 20 then { p.2 with f20 := (calculateFibonacci p.1 j (j == 0)).1 }
              else if j == 40 then { p.2 with f40 := (calculateFibonacci p.1 j (j == 0)).1 }
              else if j == 60 then { p.2 with f60 := (calculateFibonacci p.1 j (j == 0)).1 }
              else if j == 100 then { p.2 with f100 := (calculateFibonacci p.1 j (j == 0)).1 }
              else p.2))
          (st, s) := by
  intro k
  induction k with
  | zero =>
    intro i st s hk
    have hi : ¬ i ≤ 100 := by omega
    rw [testLoop]
    simp [hi]
  | succ k ih =>
    intro i st s hk
    have hi : i ≤ 100 := by omega
    have hwrap : (i + 1) % 256 = i + 1 := by omega
    rw [testLoop]
    simp only [hi, if_true, hwrap]
    rw [ih (i + 1) _ _ (by omega), List.range'_succ, List.foldl_cons]

/-- The values the loop of `test_calculateFibonacci` samples on a fresh walk. -/
theorem testLoop_fresh :
    (testLoop initState { f2 := 0, f10 := 0, f20 := 0, f40 := 0, f60 := 0, f100 := 1 } 0).2 =
      { f2 := 1, f10 := 55, f20 := 6765, f40 := 102334155, f60 := 1548008755920, f100 := 0 } := by
  rw [testLoop_eq_foldl 101 0 _ _ rfl]
  decide

theorem test_inputValid_passes : test_inputValid.1 = 0 := by decide

theorem test_calculateFibonacci_passes : (test_calculateFibonacci initState).1 = 0 := by
  simp only [test_calculateFibonacci, testLoop_fresh]
  decide

theorem test_isPrime_passes : test_isPrime.1 = 0 := by
  have h0 : isPrime 0 = false := by decide
  have h3 : isPrime 3 = true := (isPrime_eq_true_iff 3).mpr ⟨by norm_num, by decide⟩
  have h17 : isPrime 17 = true := (isPrime_eq_true_iff 17).mpr ⟨by norm_num, by decide⟩
  have h40 : isPrime 40 = false := by decide
  have h193 : isPrime 193 = true := (isPrime_eq_true_iff 193).mpr ⟨by norm_num, by decide⟩
  simp only [test_isPrime, h0, h3, h17, h40, h193, Bool.false_eq_true, if_false, if_true]

/-- The loop of `test_calculateFibonacci` on a fresh walk: the generator state it leaves
behind (the accumulators at `F(91)` and `F(92)`, where the calls above index 92 found
them) and the values it samples. -/
theorem testLoop_fresh_result :
    testLoop initState { f2 := 0, f10 := 0, f20 := 0, f40 := 0, f60 := 0, f100 := 1 } 0 =
      (⟨0, 4660046610375530309, 7540113804746346429⟩,
       { f2 := 1, f10 := 55, f20 := 6765, f40 := 102334155, f60 := 1548008755920,
         f100 := 0 }) := by
  rw [testLoop_eq_foldl 101 0 _ _ rfl]
  decide

/-- The five calls of `test_inputValid`, each with the content `*converted` has at that
point: `-1`, `0` and `abc` are rejected, `1` and `100` are accepted with their values. -/
theorem test_inputValid_calls :
    inputValid ['-', '1', '\x00'] 0 = (false, 0) ∧
    inputValid ['0', '\x00'] 0 = (false, 0) ∧
    inputValid ['1', '\x00'] 0 = (true, 1) ∧
    inputValid ['1', '0', '0', '\x00'] 1 = (true, 100) ∧
    inputValid ['a', 'b', 'c', '\x00'] 100 = (false, 100) :=
  ⟨by decide, by decide, by decide, by decide, by decide⟩

/-- The five calls of `test_isPrime`. -/
theorem test_isPrime_calls :
    isPrime 0 = false ∧ isPrime 3 = true ∧ isPrime 17 = true ∧ isPrime 40 = false ∧
    isPrime 193 = true :=
  ⟨by decide, (isPrime_eq_true_iff 3).mpr ⟨by norm_num, by decide⟩,
   (isPrime_eq_true_iff 17).mpr ⟨by norm_num, by decide⟩, by decide,
   (isPrime_eq_true_iff 193).mpr ⟨by norm_num, by decide⟩⟩

/-- Result of `test_inputValid`: no failed test and the twelve texts written. -/
theorem test_inputValid_result :
    test_inputValid =
      (0, [" \r\n", " testing inputValid .. \r\n",
           "    input -1        : ", "pass \r\n   ",
           " input  0        : ", "pass \r\n   ",
           " input  1        : ", "pass \r\n   ",
           " input  100      : ", "pass \r\n   ",
           " input  abc      : ", "pass \r\n   "]) := by
  decide

/-- Result of `test_calculateFibonacci` on a fresh walk: no failed test, the eight texts
written and the generator state left behind. -/
theorem test_calculateFibonacci_result :
    test_calculateFibonacci initState =
      (0, [" \r\n", " testing calculateFibonacci .. \r\n",
           "    fibonacci 1     : pass \r\n",
           "    fibonacci 10    : pass \r\n",
           "    fibonacci 20    : pass \r\n",
           "    fibonacci 40    : pass \r\n",
           "    fibonacci 60    : pass \r\n",
           "    fibonacci 100   : pass \r\n"],
       ⟨0, 4660046610375530309, 7540113804746346429⟩) := by
  simp only [test_calculateFibonacci, testLoop_fresh_result]
  decide

/-- Result of `test_isPrime`: no failed test and the seven texts written. -/
theorem test_isPrime_result :
    test_isPrime =
      (0, [" \r\n", " testing isPrime .. \r\n",
           "    prime check 0   : pass \r\n",
           "    prime check 3   : pass \r\n",
           "    prime check 17  : pass \r\n",
           "    prime check 40  : pass \r\n",
           "    prime check 193 : pass \r\n"]) := by
  obtain ⟨h0, h3, h17, h40, h193⟩ := test_isPrime_calls
  simp only [test_isPrime, h0, h3, h17, h40, h193, Bool.false_eq_true, if_false, if_true]
  decide

/-- From every generator state, `test_calculateFibonacci` counts no failed test exactly
when the six values its loop samples are the expected ones, and it leaves the generator in
the state its loop leaves. -/
theorem test_calculateFibonacci_zero_iff (st : GenState) :
    ((test_calculateFibonacci st).1 = 0 ↔
      (testLoop st { f2 := 0, f10 := 0, f20 := 0, f40 := 0, f60 := 0, f100 := 1 } 0).2 =
        { f2 := 1, f10 := 55, f20 := 6765, f40 := 102334155, f60 := 1548008755920,
          f100 := 0 }) ∧
    (test_calculateFibonacci st).2.2 =
      (testLoop st { f2 := 0, f10 := 0, f20 := 0, f40 := 0, f60 := 0, f100 := 1 } 0).1 := by
  refine ⟨?_, rfl⟩
  simp only [test_calculateFibonacci]
  generalize testLoop st { f2 := 0, f10 := 0, f20 := 0, f40 := 0, f60 := 0, f100 := 1 } 0 = r
  obtain ⟨st', ⟨a, b, c, d, e, f⟩⟩ := r
  simp only [Samples.mk.injEq, beq_iff_eq]
  by_cases ha : a = 1 <;> by_cases hb : b = 55 <;> by_cases hc : c = 6765 <;>
    by_cases hd : d = 102334155 <;> by_cases he : e = 1548008755920 <;>
    by_cases hf : f = 0 <;> simp [ha, hb, hc, hd, he, hf]

/-- The function `runTests` in terms of the three test functions, from every generator
state: the counter is the sum of the three counts, the texts are the heading, the texts of
the three tests in their order and the summary, and the generator state is the one
`test_calculateFibonacci` leaves behind. -/
theorem runTests_eq (st : GenState) :
    (runTests st).1 =
      (test_inputValid.1 + (test_calculateFibonacci st).1 + test_isPrime.1) % 256 ∧
    (runTests st).2.1 =
      [" \r\n", " running tests \r\n"] ++ test_inputValid.2 ++ (test_calculateFibonacci st).2.1
        ++ test_isPrime.2 ++
        (if (runTests st).1 = 0 then ["\r\n", " All tests passed \r\n"]
         else ["\r\n", " Failed " ++ Nat.repr (runTests st).1 ++ " test(s) \r\n"]) ∧
    (runTests st).2.2 = (test_calculateFibonacci st).2.2 := by
  refine ⟨?_, ?_, rfl⟩
  · simp only [runTests, Nat.zero_add, Nat.mod_add_mod]
  · simp only [runTests, beq_iff_eq]
    split <;> rfl

/-- C13. Run from the initial process state, the self tests pass.  Every call the tests
check gives the expected result: `inputValid` on `-1`, `0`, `1`, `100` and `abc`, the walk
of `calculateFibonacci` over the indices 0 to 100 sampled at 2, 10, 20, 40, 60 and 100,
and `isPrime` on 0, 3, 17, 40 and 193.  So `test_inputValid`, `test_calculateFibonacci`
and `test_isPrime` each count 0 failed tests and write their `pass` texts; `runTests`, whose
counter is the sum of the three counts and whose texts are those of the three tests between
its heading and its summary (from every generator state, where `test_calculateFibonacci`
counts 0 exactly when the six sampled values are the expected ones), ends with `iFailed = 0` and the summary line
`All tests passed`; `main` with the argument `--test` writes that output and returns 0. -/
theorem self_tests_pass :
    test_inputValid.1 = 0 ∧
    (test_calculateFibonacci initState).1 = 0 ∧
    test_isPrime.1 = 0 ∧
    (runTests initState).1 = 0 ∧
    (∃ texts, (runTests initState).2.1 = texts ++ ["\r\n", " All tests passed \r\n"]) ∧
    (runTests initState).2.1.getLast? = some " All tests passed \r\n" ∧
    main ["fib".toList, "--test".toList] = (0, (runTests initState).2.1) ∧
    (inputValid ['-', '1', '\x00'] 0 = (false, 0) ∧
      inputValid ['0', '\x00'] 0 = (false, 0) ∧
      inputValid ['1', '\x00'] 0 = (true, 1) ∧
      inputValid ['1', '0', '0', '\x00'] 1 = (true, 100) ∧
      inputValid ['a', 'b', 'c', '\x00'] 100 = (false, 100)) ∧
    (testLoop initState { f2 := 0, f10 := 0, f20 := 0, f40 := 0, f60 := 0, f100 := 1 } 0).2 =
      { f2 := 1, f10 := 55, f20 := 6765, f40 := 102334155, f60 := 1548008755920,
        f100 := 0 } ∧
    (isPrime 0 = false ∧ isPrime 3 = true ∧ isPrime 17 = true ∧ isPrime 40 = false ∧
      isPrime 193 = true) ∧
    test_inputValid.2 =
      [" \r\n", " testing inputValid .. \r\n",
       "    input -1        : ", "pass \r\n   ",
       " input  0        : ", "pass \r\n   ",
       " input  1        : ", "pass \r\n   ",
       " input  100      : ", "pass \r\n   ",
       " input  abc      : ", "pass \r\n   "] ∧
    (test_calculateFibonacci initState).2.1 =
      [" \r\n", " testing calculateFibonacci .. \r\n",
       "    fibonacci 1     : pass \r\n",
       "    fibonacci 10    : pass \r\n",
       "    fibonacci 20    : pass \r\n",
       "    fibonacci 40    : pass \r\n",
       "    fibonacci 60    : pass \r\n",
       "    fibonacci 100   : pass \r\n"] ∧
    test_isPrime.2 =
      [" \r\n", " testing isPrime .. \r\n",
       "    prime check 0   : pass \r\n",
       "    prime check 3   : pass \r\n",
       "    prime check 17  : pass \r\n",
       "    prime check 40  : pass \r\n",
       "    prime check 193 : pass \r\n"] ∧
    (∀ st, (test_calculateFibonacci st).1 = 0 ↔
      (testLoop st { f2 := 0, f10 := 0, f20 := 0, f40 := 0, f60 := 0, f100 := 1 } 0).2 =
        { f2 := 1, f10 := 55, f20 := 6765, f40 := 102334155, f60 := 1548008755920,
          f100 := 0 }) ∧
    (∀ st, (runTests st).1 =
      (test_inputValid.1 + (test_calculateFibonacci st).1 + test_isPrime.1) % 256) ∧
    (∀ st, (runTests st).2.1 =
      [" \r\n", " running tests \r\n"] ++ test_inputValid.2 ++ (test_calculateFibonacci st).2.1
        ++ test_isPrime.2 ++
        (if (runTests st).1 = 0 then ["\r\n", " All tests passed \r\n"]
         else ["\r\n", " Failed " ++ Nat.repr (runTests st).1 ++ " test(s) \r\n"])) ∧
    (runTests initState).2.1 =
      [" \r\n", " running tests \r\n",
       " \r\n", " testing inputValid .. \r\n",
       "    input -1        : ", "pass \r\n   ",
       " input  0        : ", "pass \r\n   ",
       " input  1        : ", "pass \r\n   ",
       " input  100      : ", "pass \r\n   ",
       " input  abc      : ", "pass \r\n   ",
       " \r\n", " testing calculateFibonacci .. \r\n",
       "    fibonacci 1     : pass \r\n",
       "    fibonacci 10    : pass \r\n",
       "    fibonacci 20    : pass \r\n",
       "    fibonacci 40    : pass \r\n",
       "    fibonacci 60    : pass \r\n",
       "    fibonacci 100   : pass \r\n",
       " \r\n", " testing isPrime .. \r\n",
       "    prime check 0   : pass \r\n",
       "    prime check 3   : pass \r\n",
       "    prime check 17  : pass \r\n",
       "    prime check 40  : pass \r\n",
       "    prime check 193 : pass \r\n",
       "\r\n", " All tests passed \r\n"] := by
  have hsum : (runTests initState).1 = 0 := by
    rw [(runTests_eq initState).1, test_inputValid_result, test_calculateFibonacci_result,
      test_isPrime_result]
    rfl
  have hfull := (runTests_eq initState).2.1
  rw [hsum, test_inputValid_result, test_calculateFibonacci_result, test_isPrime_result] at hfull
  simp only [if_true, List.cons_append, List.nil_append] at hfull
  refine ⟨test_inputValid_passes, test_calculateFibonacci_passes, test_isPrime_passes, hsum,
    ⟨(runTests initState).2.1.take 29, by rw [hfull]; rfl⟩, ?_, main_test _ _ (by decide), test_inputValid_calls,
    testLoop_fresh, test_isPrime_calls, ?_, ?_, ?_,
    fun st => (test_calculateFibonacci_zero_iff st).1, fun st => (runTests_eq st).1,
    fun st => (runTests_eq st).2.1, hfull⟩
  · rw [hfull]
    rfl
  · rw [test_inputValid_result]
  · rw [test_calculateFibonacci_result]
  · rw [test_isPrime_result]

/-! ## The ceiling and the range of `uint64_t` -/

/-- State of the generator after a fresh walk through index 92: the accumulators hold
`F(91)` and `F(92)`. -/
theorem walk_93_state :
    (walk initState 93).1 = ⟨Nat.fib 92, Nat.fib 91, Nat.fib 92⟩ :=
  walk_state initState rfl rfl 91 (by decide)

theorem fib_93 : Nat.fib 93 = 12200160415121876738 := by norm_num

theorem fib_94 : Nat.fib 94 = 19740274219868223167 := by norm_num

/-- The sum of the accumulators after a fresh walk through index 92 is `F(93)`. -/
theorem walk_93_sum :
    (walk initState 93).1.first + (walk initState 93).1.second = Nat.fib 93 := by
  rw [walk_93_state]
  exact (Nat.fib_add_two).symm

/-- C14, as stated, fails: the sum `first + second` the generator holds after a fresh walk
through index 92 is the Fibonacci term at index 93, and it does not exceed `2 ^ 64 - 1`. -/
theorem fib_93_fits_uint64 :
    (walk initState 93).1.first + (walk initState 93).1.second = Nat.fib 93 ∧
    ¬ (2 ^ 64 - 1 < (walk initState 93).1.first + (walk initState 93).1.second) := by
  refine ⟨walk_93_sum, ?_⟩
  rw [walk_93_sum, fib_93]
  decide

/-- C14, amended. The sum `first + second` the generator holds after a fresh walk through
index 92 is the Fibonacci term at index 93, that is 12200160415121876738: it exceeds
`2 ^ 63 - 1` and not `2 ^ 64 - 1`.  The term at index 94 is the first above `2 ^ 64 - 1`:
the terms that fit in a `uint64_t` are those of the indices up to 93, so every term up to
the ceiling 92 fits, and 92 is the largest index whose term is at most `2 ^ 63 - 1`. -/
theorem ceiling_below_uint64_boundary :
    (walk initState 93).1.first + (walk initState 93).1.second = 12200160415121876738 ∧
    2 ^ 63 - 1 < (walk initState 93).1.first + (walk initState 93).1.second ∧
    (walk initState 93).1.first + (walk initState 93).1.second ≤ 2 ^ 64 - 1 ∧
    (∀ i, Nat.fib i ≤ 2 ^ 64 - 1 ↔ i ≤ 93) ∧
    (∀ i, Nat.fib i ≤ 2 ^ 63 - 1 ↔ i ≤ UPPER_LIMIT) := by
  have hsum : (walk initState 93).1.first + (walk initState 93).1.second
      = 12200160415121876738 := by
    rw [walk_93_sum, fib_93]
  refine ⟨hsum, by rw [hsum]; decide, by rw [hsum]; decide, ?_, ?_⟩
  · intro i
    constructor
    · intro h
      by_contra hi
      have h94 : Nat.fib 94 ≤ Nat.fib i := Nat.fib_mono (by omega)
      rw [fib_94] at h94
      omega
    · intro hi
      have h93 : Nat.fib i ≤ Nat.fib 93 := Nat.fib_mono hi
      rw [fib_93] at h93
      omega
  · intro i
    simp only [UPPER_LIMIT]
    constructor
    · intro h
      by_contra hi
      have h93 : Nat.fib 93 ≤ Nat.fib i := Nat.fib_mono (by omega)
      rw [fib_93] at h93
      omega
    · intro hi
      have h92 : Nat.fib i ≤ Nat.fib 92 := Nat.fib_mono hi
      have : Nat.fib 92 = 7540113804746346429 := by norm_num
      omega

/-! ## The primality check away from 2, the sentinel, and random access -/

/-- C15. For every `n` other than 2, `isPrime n` is true exactly when `n` is prime: 0, 1 and
every even number are rejected, and for an odd `n ≥ 3` the loop finds an odd divisor `d`
with `3 ≤ d < n / 2` exactly when `n` is not prime. -/
theorem isPrime_correct_away_from_two (n : Nat) (h2 : n ≠ 2) :
    (isPrime n = true ↔ Nat.Prime n) ∧
    (n ≤ 1 → isPrime n = false) ∧
    (n % 2 = 0 → isPrime n = false) ∧
    (3 ≤ n → n % 2 = 1 →
      (isPrime n = isPrimeLoop n (n / 2) 3) ∧
      ((∃ d, d % 2 = 1 ∧ 3 ≤ d ∧ d < n / 2 ∧ d ∣ n) ↔ ¬ Nat.Prime n)) := by
  have hiff : isPrime n = true ↔ Nat.Prime n := by
    rw [isPrime_eq_true_iff]
    exact ⟨fun h => h.1, fun h => ⟨h, h2⟩⟩
  refine ⟨hiff, ?_, ?_, ?_⟩
  · intro h1
    simp [isPrime, h1]
  · intro he
    simp [isPrime, he]
  · intro h3 hodd
    have h1 : ¬ n ≤ 1 := by omega
    have hbeq : (n % 2 == 0) = false := by simp [hodd]
    have hloop : isPrime n = isPrimeLoop n (n / 2) 3 := by
      simp only [isPrime, h1, if_false, hbeq, Bool.false_eq_true]
    refine ⟨hloop, ?_⟩
    rw [← hiff, hloop, isPrimeLoop_true_iff n (n / 2) (n / 2 - 3) 3 (le_refl _) (by decide)]
    constructor
    · rintro ⟨d, hd, hd3, hdlt, hdvd⟩ hall
      have hm : 3 + 2 * ((d - 3) / 2) = d := by omega
      have := hall ((d - 3) / 2) (by omega)
      rw [hm] at this
      exact this hdvd
    · intro hnall
      by_contra hex
      apply hnall
      intro m hm hdvd
      exact hex ⟨3 + 2 * m, by omega, by omega, hm, hdvd⟩

/-- The five values of the self test: 0 and 40 are rejected, 3, 17 and 193 accepted. -/
theorem isPrime_correct_away_from_two_witness :
    (0 ≠ 2 ∧ isPrime 0 = false) ∧ (3 ≠ 2 ∧ isPrime 3 = true) ∧ (17 ≠ 2 ∧ isPrime 17 = true) ∧
    (40 ≠ 2 ∧ isPrime 40 = false) ∧ (193 ≠ 2 ∧ isPrime 193 = true) :=
  ⟨⟨by decide, (isPrime_correct_away_from_two 0 (by decide)).2.1 (by decide)⟩,
   ⟨by decide, (isPrime_correct_away_from_two 3 (by decide)).1.mpr (by norm_num)⟩,
   ⟨by decide, (isPrime_correct_away_from_two 17 (by decide)).1.mpr (by norm_num)⟩,
   ⟨by decide, (isPrime_correct_away_from_two 40 (by decide)).2.2.1 (by decide)⟩,
   ⟨by decide, (isPrime_correct_away_from_two 193 (by decide)).1.mpr (by norm_num)⟩⟩

/-- C16. On a fresh walk the value 0 is returned at index 0 only: for every index `i ≤ 92`
the call at `i` returns 0 exactly when `i = 0`, so for `1 ≤ i ≤ 92` the value is not 0. -/
theorem sentinel_unambiguous (i : Nat) (h92 : i ≤ 92) :
    (walkResult initState i = 0 ↔ i = 0) ∧ (1 ≤ i → walkResult initState i ≠ 0) := by
  rw [walkResult_seed initState rfl rfl i h92]
  have hiff : Nat.fib i = 0 ↔ i = 0 := by
    constructor
    · intro h
      by_contra hi
      have := Nat.fib_pos.mpr (Nat.pos_of_ne_zero hi)
      omega
    · rintro rfl
      rfl
  exact ⟨hiff, fun h1 h0 => by have := hiff.mp h0; omega⟩

/-- The ends of the range: 0 at index 0, a value other than 0 at the indices 1 and 92. -/
theorem sentinel_unambiguous_witness :
    (0 ≤ 92 ∧ walkResult initState 0 = 0) ∧
    (1 ≤ 92 ∧ walkResult initState 1 ≠ 0) ∧
    (92 ≤ 92 ∧ walkResult initState 92 ≠ 0) :=
  ⟨⟨by decide, (sentinel_unambiguous 0 (by decide)).1.mpr rfl⟩,
   ⟨by decide, (sentinel_unambiguous 1 (by decide)).2 (by decide)⟩,
   ⟨by decide, (sentinel_unambiguous 92 (by decide)).2 (by decide)⟩⟩

/-- C19. For the indices from 2 to 92 `calculateFibonacci` ignores the index (and the
`reset` flag): from every state, all such calls return `(first + second) mod 2 ^ 64` and
leave the same next state.  A single call at index 10 from the initial state returns 1,
where `F(10) = 55`. -/
theorem not_random_access (st : GenState) (i j : Nat) (r r' : Bool)
    (hi : 2 ≤ i) (hi92 : i ≤ 92) (hj : 2 ≤ j) (hj92 : j ≤ 92) :
    calculateFibonacci st i r = calculateFibonacci st j r' ∧
    (calculateFibonacci st i r).1 = (st.first + st.second) % 2 ^ 64 ∧
    (calculateFibonacci initState 10 true).1 = 1 ∧ Nat.fib 10 = 55 := by
  rw [calculateFibonacci_step st i r hi hi92, calculateFibonacci_step st j r' hj hj92]
  exact ⟨rfl, rfl, by decide, by norm_num⟩

/-- From the initial state the calls at index 10 and at index 2 return the same value 1 and
leave the same state. -/
theorem not_random_access_witness :
    calculateFibonacci initState 10 false = calculateFibonacci initState 2 false ∧
    (calculateFibonacci initState 10 false).1 = 1 :=
  ⟨(not_random_access initState 10 2 false false (by decide) (by decide) (by decide)
      (by decide)).1,
   (not_random_access initState 10 2 false false (by decide) (by decide) (by decide)
      (by decide)).2.1⟩

/-! ## The empty string and signed arguments -/

/-- The library function `strtol` on the empty string: no conversion, the value is 0 and
`endptr` is `nptr`, which points at the terminator. -/
theorem strtol_empty : strtol [] = (0, []) ∧ strtol ['\x00'] = (0, ['\x00']) :=
  ⟨by decide, by decide⟩

/-- C17, as stated, fails: for the empty string the test `*invalid == 0` of line 82 does
not fail, it holds, since `endptr` points at the terminator of the string; `inputValid`
reaches the test `output <= 0`. -/
theorem empty_string_passes_consumed_check :
    ¬ (deref (strtol []).2 ≠ 0) ∧ ¬ (deref (strtol ['\x00']).2 ≠ 0) ∧
    (strtol []).1 ≤ 0 ∧ (strtol ['\x00']).1 ≤ 0 := by
  rw [strtol_empty.1, strtol_empty.2]
  exact ⟨by decide, by decide, by decide, by decide⟩

/-- C17, amended. The empty string is rejected by `inputValid` at the non-positive check:
nothing is consumed by the parser, `endptr` stays at the start of the string, which is its
terminator, so the test `*invalid == 0` holds; the converted value is 0, the test
`output <= 0` holds and `inputValid` returns false, leaving `*converted` as it was. -/
theorem empty_string_rejected_as_non_positive (converted : Nat) :
    (strtol []).2 = [] ∧ deref (strtol []).2 = 0 ∧ (strtol []).1 = 0 ∧
    inputValid [] converted = (false, converted) ∧
    (strtol ['\x00']).2 = ['\x00'] ∧ deref (strtol ['\x00']).2 = 0 ∧ (strtol ['\x00']).1 = 0 ∧
    inputValid ['\x00'] converted = (false, converted) := by
  have h1 : inputValid [] converted = (false, converted) := by
    simp only [inputValid, strtol_empty.1, deref, beq_self_eq_true, if_true, le_refl]
  have h2 : inputValid ['\x00'] converted = (false, converted) := by
    have hd : deref ['\x00'] = 0 := by decide
    simp only [inputValid, strtol_empty.2, hd, beq_self_eq_true, if_true, le_refl]
  rw [strtol_empty.1, strtol_empty.2]
  exact ⟨rfl, rfl, rfl, h1, rfl, by decide, rfl, h2⟩

/-- The library function `strtol` on a sign followed by a non-empty run of digits `d` and a
rest `r` that does not start with a digit: `endptr` is `r`, the value is that of `d` with
the sign applied, clamped to the range of `long`. -/
theorem strtol_signed (d r : List Char) (hne : d ≠ []) (hd : ∀ c ∈ d, isdigit c = true)
    (hr : ∀ c ∈ r.head?, isdigit c = false) :
    strtol ('-' :: (d ++ r)) =
      ((if -(decimalValue d : Int) < LONG_MIN then LONG_MIN else -(decimalValue d : Int)), r) ∧
    strtol ('+' :: (d ++ r)) =
      ((if (decimalValue d : Int) > LONG_MAX then LONG_MAX else (decimalValue d : Int)), r) := by
  obtain ⟨c, cs, rfl⟩ := List.exists_cons_of_ne_nil hne
  have hc : isdigit c = true := hd c (List.mem_cons_self _ _)
  have hm : isspace '-' = false := by decide
  have hp : isspace '+' = false := by decide
  have hscan := scanDigits_append (c :: cs) r hd hr 0
  simp only [zero_mul, zero_add, List.cons_append] at hscan
  constructor
  · simp only [List.cons_append, strtol, List.dropWhile, hm, scanSign, hc, if_true, hscan]
  · simp only [List.cons_append, strtol, List.dropWhile, hp, scanSign, hc, if_true, hscan,
      Bool.false_eq_true, if_false]

/-- C18, as stated, fails for the sign `+`: the argument `+5` is parsed completely and
`inputValid` accepts it with the value 5. -/
theorem plus_sign_accepted :
    strtol ['+', '5'] = (5, []) ∧ inputValid ['+', '5'] 0 = (true, 5) ∧
    inputValid ['+', '5', '\x00'] 0 = (true, 5) :=
  ⟨by decide, by decide, by decide⟩

/-- C18, amended. For every non-empty string of decimal digits `d`, the arguments `-d` and
`+d` are parsed completely by `strtol` (`endptr` is at the terminator).  For `-d` the
converted value is not positive and `inputValid` returns false through its non-positive
check.  For `+d` the converted value is that of `d` (clamped to `LONG_MAX`), and
`inputValid` returns true exactly when that value is greater than 0, storing it. -/
theorem signed_arguments (d r : List Char) (converted : Nat) (hne : d ≠ [])
    (hd : ∀ c ∈ d, isdigit c = true) (hr : deref r = 0) :
    ((strtol ('-' :: (d ++ r))).2 = r ∧ deref (strtol ('-' :: (d ++ r))).2 = 0 ∧
      (strtol ('-' :: (d ++ r))).1 ≤ 0 ∧
      inputValid ('-' :: (d ++ r)) converted = (false, converted)) ∧
    ((strtol ('+' :: (d ++ r))).2 = r ∧ deref (strtol ('+' :: (d ++ r))).2 = 0 ∧
      (strtol ('+' :: (d ++ r))).1 = min (decimalValue d : Int) LONG_MAX ∧
      ((inputValid ('+' :: (d ++ r)) converted).1 = true ↔ 0 < decimalValue d) ∧
      (0 < decimalValue d →
        (inputValid ('+' :: (d ++ r)) converted).2 = min (decimalValue d) (2 ^ 63 - 1))) := by
  obtain ⟨hminus, hplus⟩ := strtol_signed d r hne hd (not_isdigit_of_deref hr)
  have hneg : (if -(decimalValue d : Int) < LONG_MIN then LONG_MIN else -(decimalValue d : Int))
      ≤ 0 := by
    simp only [LONG_MIN]
    split <;> omega
  have hmin : (if (decimalValue d : Int) > LONG_MAX then LONG_MAX else (decimalValue d : Int))
      = min (decimalValue d : Int) LONG_MAX := by
    simp only [LONG_MAX]
    split <;> omega
  constructor
  · rw [hminus]
    refine ⟨rfl, hr, hneg, ?_⟩
    simp only [inputValid, hminus, hr, beq_self_eq_true, if_true, hneg]
  · rw [hplus, hmin]
    refine ⟨rfl, hr, rfl, ?_, ?_⟩
    · by_cases hpos : 0 < decimalValue d
      · have hnle : ¬ (min (decimalValue d : Int) LONG_MAX ≤ 0) := by
          simp only [LONG_MAX]
          omega
        simp only [inputValid, hplus, hmin, hr, beq_self_eq_true, if_true, hnle, if_false, hpos]
      · have hle : min (decimalValue d : Int) LONG_MAX ≤ 0 := by
          simp only [LONG_MAX]
          omega
        simp only [inputValid, hplus, hmin, hr, beq_self_eq_true, if_true, hle, hpos,
          Bool.false_eq_true]
    · intro hpos
      have hnle : ¬ (min (decimalValue d : Int) LONG_MAX ≤ 0) := by
        simp only [LONG_MAX]
        omega
      have hval : (min (decimalValue d : Int) LONG_MAX).toNat % 2 ^ 64
          = min (decimalValue d) (2 ^ 63 - 1) := by
        simp only [LONG_MAX]
        omega
      simp only [inputValid, hplus, hmin, hr, beq_self_eq_true, if_true, hnle, if_false, hval]

/-- The arguments `-1` of the self test and `+5`: the first is rejected, the second is
accepted with the value 5. -/
theorem signed_arguments_witness :
    inputValid ['-', '1', '\x00'] 0 = (false, 0) ∧
    (strtol ['+', '5']).1 = min (decimalValue ['5'] : Int) LONG_MAX ∧
    ((inputValid ['+', '5'] 0).1 = true ↔ 0 < decimalValue ['5']) :=
  ⟨(signed_arguments ['1'] ['\x00'] 0 (by decide) (by decide) (by decide)).1.2.2.2,
   (signed_arguments ['5'] [] 0 (by decide) (by decide) (by decide)).2.2.2.1,
   (signed_arguments ['5'] [] 0 (by decide) (by decide) (by decide)).2.2.2.2.1⟩

end Fibonacci
